import Mathlib

/-!
# Verification of the geometric coverage-planning engine

A shallow embedding of the placement engine of `Fire_Extinguisher_Planner.py`:
the placement generators (`calculate_grid_placement`, `calculate_hex_placement`),
the coverage repair step (`ensure_coverage`, `find_internal_spot`), the solution
builder (`generate_multiple_solutions`) and the coverage verifier
(`check_geometric_coverage`).

Modelling choices:
* Python floats are idealised as real numbers (`ℝ`); `math.hypot` becomes the
  Euclidean distance `pdist` built from `Real.sqrt`.
* Shapely's point-in-polygon test `poly.contains(p)` (strict interior) is
  embedded as the standard even-odd ray-casting predicate with explicit
  exclusion of points lying on a boundary edge.
* Shapely's `poly.representative_point()` is external library code; it is
  modelled by its documented contract: it returns a point inside the polygon
  whenever the polygon has one (via choice), cf. `representative_point_contains`.
* Shapely areas and the union of `buffer` disks in the verifier are modelled
  measure-theoretically: the polygon denotes its closed region `polyRegion`,
  disks are closed Euclidean disks (`buffer(r)` of a point is empty for
  `r ≤ 0`), and `.area` is the Lebesgue `volume` of the region.
* The `while` scan loops of the generators are embedded by their exact
  iteration count `⌈(bound - start)/step⌉₊`; the lemma `scanXs_loop` proves
  that for a positive step this is precisely the unfolding of the loop
  `while x < bound: ...; x += step`.
-/

open scoped BigOperators ENNReal

namespace FEP

/-- A 2-D point (a pair of real coordinates). -/
abbrev Pt : Type := ℝ × ℝ

/-- Squared Euclidean distance between two points. -/
def distSq (p q : Pt) : ℝ := (p.1 - q.1) ^ 2 + (p.2 - q.2) ^ 2

/-- Euclidean distance (`math.hypot` in the source). -/
noncomputable def pdist (p q : Pt) : ℝ := Real.sqrt (distSq p q)

/-- A polygon is its ordered ring of vertices (closing edge implicit). -/
abbrev Polygon : Type := List Pt

/-- The directed edge list of a polygon: consecutive vertex pairs, including
the closing edge back to the first vertex. -/
def edges (P : Polygon) : List (Pt × Pt) := P.zip (P.rotate 1)

/-- `p` lies on the closed segment from `a` to `b` (collinear and inside the
bounding box of the segment). -/
def onSegment (a b p : Pt) : Prop :=
  (b.1 - a.1) * (p.2 - a.2) = (b.2 - a.2) * (p.1 - a.1) ∧
  min a.1 b.1 ≤ p.1 ∧ p.1 ≤ max a.1 b.1 ∧
  min a.2 b.2 ≤ p.2 ∧ p.2 ≤ max a.2 b.2

/-- `p` lies on the boundary ring of `P`. -/
def onBoundary (P : Polygon) (p : Pt) : Prop :=
  ∃ e ∈ edges P, onSegment e.1 e.2 p

/-- The horizontal ray from `p` to the right crosses the edge `(a, b)`
(standard half-open even-odd crossing rule). -/
def crossesRay (a b p : Pt) : Prop :=
  ((a.2 ≤ p.2 ∧ p.2 < b.2) ∨ (b.2 ≤ p.2 ∧ p.2 < a.2)) ∧
  p.1 < a.1 + (b.1 - a.1) * (p.2 - a.2) / (b.2 - a.2)

open Classical in
/-- The number of polygon edges crossed by the horizontal ray from `p`. -/
noncomputable def crossCount (P : Polygon) (p : Pt) : ℕ :=
  ((edges P).map fun e => if crossesRay e.1 e.2 p then 1 else 0).sum

/-- Shapely's `poly.contains(Point(p))`: `p` lies strictly inside the polygon
(odd ray-crossing count, boundary points excluded). -/
noncomputable def contains (P : Polygon) (p : Pt) : Prop :=
  ¬ onBoundary P p ∧ Odd (crossCount P p)

/-- The set of points strictly inside the polygon. -/
def containsSet (P : Polygon) : Set Pt := {p | contains P p}

/-- `poly.bounds` : min x over the vertices. -/
def minX : Polygon → ℝ
  | [] => 0
  | p :: ps => ps.foldl (fun a q => min a q.1) p.1

/-- `poly.bounds` : min y over the vertices. -/
def minY : Polygon → ℝ
  | [] => 0
  | p :: ps => ps.foldl (fun a q => min a q.2) p.2

/-- `poly.bounds` : max x over the vertices. -/
def maxX : Polygon → ℝ
  | [] => 0
  | p :: ps => ps.foldl (fun a q => max a q.1) p.1

/-- `poly.bounds` : max y over the vertices. -/
def maxY : Polygon → ℝ
  | [] => 0
  | p :: ps => ps.foldl (fun a q => max a q.2) p.2

/-- `list(poly.exterior.coords)`: the vertex ring with the first vertex
repeated at the end (shapely linear rings are explicitly closed). -/
def exteriorCoords (P : Polygon) : List Pt := P ++ P.take 1

/-- Twice the signed shoelace area: `Σ (xᵢ·yⱼ - xⱼ·yᵢ)` over the edges. -/
def shoelace (P : Polygon) : ℝ :=
  ((edges P).map fun e => e.1.1 * e.2.2 - e.2.1 * e.1.2).sum

/-- `poly.area`: the absolute shoelace area. -/
noncomputable def polyArea (P : Polygon) : ℝ := |shoelace P| / 2

open Classical in
/-- `poly.centroid`: the standard area-weighted polygon centroid (shapely /
GEOS formula); an arbitrary value on degenerate (zero signed area) input. -/
noncomputable def centroid (P : Polygon) : Pt :=
  if shoelace P = 0 then (0, 0)
  else
    (((edges P).map fun e =>
        (e.1.1 + e.2.1) * (e.1.1 * e.2.2 - e.2.1 * e.1.2)).sum / (3 * shoelace P),
     ((edges P).map fun e =>
        (e.1.2 + e.2.2) * (e.1.1 * e.2.2 - e.2.1 * e.1.2)).sum / (3 * shoelace P))

open Classical in
/-- Shapely's `poly.representative_point()`, modelled by its documented
contract: a point guaranteed to lie inside the polygon (whenever the
polygon has an interior point at all). -/
noncomputable def representative_point (P : Polygon) : Pt :=
  if h : ∃ p, contains P p then h.choose else centroid P

theorem representative_point_contains {P : Polygon} (h : ∃ p, contains P p) :
    contains P (representative_point P) := by
  rw [representative_point, dif_pos h]
  exact h.choose_spec

/-- The closed region denoted by the polygon (interior together with the
boundary ring); this is what the polygon geometry means to the verifier. -/
def polyRegion (P : Polygon) : Set Pt := {p | contains P p ∨ onBoundary P p}

/-! ## Scan loops -/

/-- The values visited by `x = start; while x < bound: visit x; x += step`:
exactly `⌈(bound - start)/step⌉₊` iterations.  `scanXs_loop` below shows that
for `0 < step` this is precisely the loop unfolding. -/
noncomputable def scanXs (start bound step : ℝ) : List ℝ :=
  (List.range (Nat.ceil ((bound - start) / step))).map fun i : ℕ => start + (i : ℝ) * step

/-! ## Placement generators -/

/-- The grid cell spacing: `radius * 1.414 * 0.95` (source line
`spacing = radius * 1.414 * 0.95`; note the literal `1.414`, not `√2`). -/
noncomputable def gridSpacing (radius : ℝ) : ℝ := radius * 1.414 * 0.95

open Classical in
/-- The lattice scan of `calculate_grid_placement` (the nested `while` loops,
before the final `ensure_coverage` call): scan x from
`minx + spacing*offset.1` and, inside, y from `miny + spacing*offset.2`, both
up to `max + spacing`, keeping the lattice points strictly inside the polygon,
in scan order. -/
noncomputable def gridScan (P : Polygon) (radius : ℝ) (offset : ℝ × ℝ) : List Pt :=
  let spacing := gridSpacing radius
  (scanXs (minX P + spacing * offset.1) (maxX P + spacing) spacing).flatMap fun x =>
    (scanXs (minY P + spacing * offset.2) (maxY P + spacing) spacing).filterMap fun y =>
      if contains P (x, y) then some (x, y) else none

open Classical in
/-- The row scan of `calculate_hex_placement` (before `ensure_coverage`):
rows at `y = miny + radius/2 + row*spacing_y` while `y < maxy + radius`, each
row's x starting at `minx + offset + radius/2` (odd rows offset by
`spacing_x/2`) while `x < maxx + radius`. -/
noncomputable def hexScan (P : Polygon) (radius : ℝ) : List Pt :=
  let spacingX := radius * 1.732 * 0.95
  let spacingY := radius * 1.5 * 0.95
  (List.range (Nat.ceil ((maxY P + radius - (minY P + radius / 2)) / spacingY))).flatMap
    fun row : ℕ =>
      let y := minY P + radius / 2 + (row : ℝ) * spacingY
      let offset : ℝ := if row % 2 = 0 then 0 else spacingX / 2
      (scanXs (minX P + offset + radius / 2) (maxX P + radius) spacingX).filterMap fun x =>
        if contains P (x, y) then some (x, y) else none

/-! ## Coverage repair -/

open Classical in
/-- First element of the list strictly inside the polygon (the `for` loop of
`find_internal_spot` returning at the first `poly.contains(candidate)`). -/
noncomputable def findFirstInside (P : Polygon) : List Pt → Option Pt
  | [] => none
  | c :: cs => if contains P c then some c else findFirstInside P cs

/-- The `i`-th intermediate point of the walk from `v` towards `t`:
`v + (t - v) * (i*2/dist)` (source: `ratio = (i * 2.0) / dist`). -/
noncomputable def walkPoint (v t : Pt) (dist : ℝ) (i : ℕ) : Pt :=
  (v.1 + (t.1 - v.1) * (i * 2 / dist), v.2 + (t.2 - v.2) * (i * 2 / dist))

open Classical in
/-- `find_internal_spot(poly, vertex_pt, radius)`: walk from the vertex
towards the representative point in steps of length 2 and return the first
intermediate point strictly inside the polygon, falling back to the
representative point itself.  (`radius` is accepted and unused, as in the
source.) -/
noncomputable def find_internal_spot (P : Polygon) (vertex_pt : Pt) (_radius : ℝ) : Pt :=
  let target := representative_point P
  let dist := pdist vertex_pt target
  if dist = 0 then target
  else
    let steps : ℕ := ⌊dist / 2⌋₊
    match findFirstInside P (((List.range' 1 (steps - 1))).map (walkPoint vertex_pt target dist)) with
    | some c => c
    | none => target

open Classical in
/-- The seeding step of `ensure_coverage`: an empty placement list is seeded
with the centroid if the polygon contains it, else with the representative
point. -/
noncomputable def seedPoints (P : Polygon) (points : List Pt) : List Pt :=
  if points = [] then
    if contains P (centroid P) then [centroid P] else [representative_point P]
  else points

/-- `MultiPoint(final_points).distance(pt) > radius`: every current placement
point is farther than `radius` from `pt`. -/
def mpFar (cur : List Pt) (pt : Pt) (radius : ℝ) : Prop :=
  ∀ p ∈ cur, radius < pdist p pt

open Classical in
/-- One iteration of the repair loop of `ensure_coverage`: if the test point
is farther than `radius` from every current placement point, append the point
found by `find_internal_spot`. -/
noncomputable def repairStep (P : Polygon) (radius : ℝ) (cur : List Pt) (tp : Pt) : List Pt :=
  if mpFar cur tp radius then cur ++ [find_internal_spot P tp radius] else cur

/-- `ensure_coverage(poly, points, radius)`: seed an empty list, then sweep
the closed exterior ring, inserting a repair point for every test point
farther than `radius` from all current placement points (later test points
see the augmented list). -/
noncomputable def ensure_coverage (P : Polygon) (points : List Pt) (radius : ℝ) : List Pt :=
  (exteriorCoords P).foldl (repairStep P radius) (seedPoints P points)

/-- `calculate_grid_placement(poly, radius, offset_ratio)`. -/
noncomputable def calculate_grid_placement (P : Polygon) (radius : ℝ) (offset : ℝ × ℝ) :
    List Pt :=
  ensure_coverage P (gridScan P radius offset) radius

/-- `calculate_hex_placement(poly, radius)`. -/
noncomputable def calculate_hex_placement (P : Polygon) (radius : ℝ) : List Pt :=
  ensure_coverage P (hexScan P radius) radius

/-! ## Solution set builder -/

/-- One named candidate layout. -/
structure Solution where
  name : String
  points : List Pt

/-- `generate_multiple_solutions(poly, radius, safety_factor)`: the three
named solutions, in source order, all at `effective_radius = radius *
safety_factor`. -/
noncomputable def generate_multiple_solutions (P : Polygon) (radius safety_factor : ℝ) :
    List Solution :=
  let effective_radius := radius * safety_factor
  [⟨"Option A: Standard Grid", calculate_grid_placement P effective_radius (0, 0)⟩,
   ⟨"Option B: Offset Grid", calculate_grid_placement P effective_radius (0.5, 0.5)⟩,
   ⟨"Option C: Hexagonal Packing", calculate_hex_placement P effective_radius⟩]

/-! ## Coverage verifier -/

/-- `Point(p).buffer(r)`: the closed disk of radius `r` about `p`; empty for
`r ≤ 0` (buffering a point by a non-positive distance yields an empty
geometry). -/
def disk (c : Pt) (r : ℝ) : Set Pt := if 0 < r then {p | distSq p c ≤ r ^ 2} else ∅

/-- `unary_union(circles)`: the union of the coverage disks. -/
def unionDisks (points : List Pt) (r : ℝ) : Set Pt := ⋃ p ∈ points, disk p r

/-- The adequacy condition tested inside `check_geometric_coverage`:
`coverage.contains(poly) or coverage.intersection(poly).area >= poly.area * 0.999`,
with geometry areas read as Lebesgue volume. -/
def coverageAdequate (P : Polygon) (points : List Pt) (er : ℝ) : Prop :=
  polyRegion P ⊆ unionDisks points er ∨
    (999 / 1000 : ℝ≥0∞) * MeasureTheory.volume (polyRegion P) ≤
      MeasureTheory.volume (unionDisks points er ∩ polyRegion P)

/-- `check_geometric_coverage(poly, points, radius, safety_factor)` in its
idealised (exception-free) semantics: `False` for an empty placement list,
else the geometric adequacy test at `effective_r = radius * safety_factor`.
The exception path of the source is modelled by
`check_geometric_coverage_run` below. -/
def check_geometric_coverage (P : Polygon) (points : List Pt) (radius safety_factor : ℝ) :
    Prop :=
  points ≠ [] ∧ coverageAdequate P points (radius * safety_factor)

/-- The control-flow skeleton of `check_geometric_coverage` with the fallible
shapely computation made explicit: `if not points: return False`, then
`try: return <inner>` with `except: ...; return True`.  `inner` is the
outcome of the internal geometric computation (`Except.error` when the
geometry library raises). -/
def check_geometric_coverage_run (points : List Pt) (inner : Except String Bool) :
    Except String Bool :=
  if points.isEmpty then .ok false
  else
    match inner with
    | .ok b => .ok b
    | .error _ => .ok true

/-! ## Spec-side definitions (for refinement claims) -/

/-- Modelled from the spec: the rectangular lattice the spec describes for the
grid generator — "Scan a lattice from `(minX + offsetRatio.x*s, minY +
offsetRatio.y*s)` stepping by `s` in both axes up to `max + s`" — for an
arbitrary cell spacing `s`, x-major scan order. -/
noncomputable def specLattice (P : Polygon) (s : ℝ) (offset : ℝ × ℝ) : List Pt :=
  (scanXs (minX P + s * offset.1) (maxX P + s) s).flatMap fun x =>
    (scanXs (minY P + s * offset.2) (maxY P + s) s).map fun y => (x, y)

open Classical in
/-- Modelled from the spec: the grid generator output the spec claims —
"keep only lattice points that fall inside the polygon" — with cell spacing
`s = r * sqrt 2 * 0.95` as literally stated by the spec. -/
noncomputable def specGridSqrt2 (P : Polygon) (radius : ℝ) (offset : ℝ × ℝ) : List Pt :=
  (specLattice P (radius * Real.sqrt 2 * 0.95) offset).filter fun p => decide (contains P p)

open Classical in
/-- Modelled from the spec (amended): the same description with the source's
actual spacing `r * 1.414 * 0.95`. -/
noncomputable def specGrid1414 (P : Polygon) (radius : ℝ) (offset : ℝ × ℝ) : List Pt :=
  (specLattice P (gridSpacing radius) offset).filter fun p => decide (contains P p)

/-! ## Distance toolkit -/

theorem distSq_nonneg (p q : Pt) : 0 ≤ distSq p q :=
  add_nonneg (sq_nonneg _) (sq_nonneg _)

theorem pdist_nonneg (p q : Pt) : 0 ≤ pdist p q := Real.sqrt_nonneg _

theorem distSq_comm (p q : Pt) : distSq p q = distSq q p := by
  simp only [distSq]; ring

theorem pdist_comm (p q : Pt) : pdist p q = pdist q p := by
  simp only [pdist, distSq_comm]

theorem distSq_eq_zero_iff {p q : Pt} : distSq p q = 0 ↔ p = q := by
  constructor
  · intro h
    rw [distSq] at h
    have h1 : (p.1 - q.1) ^ 2 = 0 :=
      le_antisymm (by nlinarith [sq_nonneg (p.2 - q.2)]) (sq_nonneg _)
    have h2 : (p.2 - q.2) ^ 2 = 0 :=
      le_antisymm (by nlinarith [sq_nonneg (p.1 - q.1)]) (sq_nonneg _)
    have h1' : p.1 - q.1 = 0 := by
      have := sq_eq_zero_iff.mp h1; linarith [this]
    have h2' : p.2 - q.2 = 0 := by
      have := sq_eq_zero_iff.mp h2; linarith [this]
    exact Prod.ext (by linarith) (by linarith)
  · rintro rfl; simp [distSq]

theorem pdist_eq_zero_iff {p q : Pt} : pdist p q = 0 ↔ p = q := by
  rw [pdist, Real.sqrt_eq_zero (distSq_nonneg p q), distSq_eq_zero_iff]

theorem pdist_le_iff {p q : Pt} {r : ℝ} (hr : 0 ≤ r) :
    pdist p q ≤ r ↔ distSq p q ≤ r ^ 2 := Real.sqrt_le_left hr

theorem lt_pdist_iff {p q : Pt} {r : ℝ} (hr : 0 ≤ r) :
    r < pdist p q ↔ r ^ 2 < distSq p q := Real.lt_sqrt hr

theorem abs_fst_sub_le_pdist (p q : Pt) : |p.1 - q.1| ≤ pdist p q :=
  Real.abs_le_sqrt (le_add_of_nonneg_right (sq_nonneg _))

theorem abs_snd_sub_le_pdist (p q : Pt) : |p.2 - q.2| ≤ pdist p q :=
  Real.abs_le_sqrt (le_add_of_nonneg_left (sq_nonneg _))

theorem pdist_triangle (p q r : Pt) : pdist p r ≤ pdist p q + pdist q r := by
  have hpq := distSq_nonneg p q
  have hqr := distSq_nonneg q r
  have hmul : pdist p q * pdist q r = Real.sqrt (distSq p q * distSq q r) :=
    (Real.sqrt_mul hpq _).symm
  rw [pdist, Real.sqrt_le_iff]
  refine ⟨add_nonneg (pdist_nonneg p q) (pdist_nonneg q r), ?_⟩
  have hcs : (p.1 - q.1) * (q.1 - r.1) + (p.2 - q.2) * (q.2 - r.2) ≤
      Real.sqrt (distSq p q * distSq q r) := by
    rcases le_or_lt ((p.1 - q.1) * (q.1 - r.1) + (p.2 - q.2) * (q.2 - r.2)) 0 with h | h
    · exact h.trans (Real.sqrt_nonneg _)
    · rw [Real.le_sqrt h.le (by positivity)]
      simp only [distSq]
      nlinarith [sq_nonneg ((p.1 - q.1) * (q.2 - r.2) - (p.2 - q.2) * (q.1 - r.1))]
  have hsq1 : pdist p q ^ 2 = distSq p q := Real.sq_sqrt hpq
  have hsq2 : pdist q r ^ 2 = distSq q r := Real.sq_sqrt hqr
  have hexp : (pdist p q + pdist q r) ^ 2 =
      distSq p q + distSq q r + 2 * (pdist p q * pdist q r) := by
    rw [add_sq, hsq1, hsq2]; ring
  rw [hexp, hmul]
  simp only [distSq] at hcs ⊢
  nlinarith [hcs]

/-! ## Scan-loop lemmas -/

theorem natCeil_sub_one {a : ℝ} : ⌈a - 1⌉₊ = ⌈a⌉₊ - 1 := by
  rcases le_or_lt a 1 with h | h
  · have h1 : ⌈a - 1⌉₊ = 0 := Nat.ceil_eq_zero.mpr (by linarith)
    have h2 : ⌈a⌉₊ ≤ 1 := by
      rw [Nat.ceil_le]; exact_mod_cast h
    omega
  · have hc1 : 1 ≤ ⌈a⌉₊ := Nat.one_le_ceil_iff.mpr (by linarith)
    rcases Nat.eq_or_lt_of_le hc1 with h1 | h1
    · -- ⌈a⌉₊ = 1, so 0 < a ≤ 1 contradicts 1 < a unless a ≤ 1; here a > 1 means ⌈a⌉₊ ≥ 2
      exfalso
      have := Nat.lt_ceil.mpr (show ((1:ℕ) : ℝ) < a by exact_mod_cast h)
      omega
    · have h2 : ⌈a⌉₊ - 1 ≠ 0 := by omega
      rw [Nat.ceil_eq_iff h2]
      have hle : a ≤ ⌈a⌉₊ := Nat.le_ceil a
      have hgt : (↑(⌈a⌉₊ - 1) : ℝ) < a := by
        have := Nat.ceil_lt_add_one (show (0:ℝ) ≤ a by linarith)
        push_cast [Nat.cast_sub (by omega : 1 ≤ ⌈a⌉₊)]
        linarith
      constructor
      · have hsub : ⌈a⌉₊ - 1 - 1 < ⌈a⌉₊ - 1 := by omega
        have : (↑(⌈a⌉₊ - 1 - 1) : ℝ) ≤ (↑(⌈a⌉₊ - 1) : ℝ) - 1 := by
          push_cast [Nat.cast_sub (by omega : 1 ≤ ⌈a⌉₊ - 1), Nat.cast_sub (by omega : 1 ≤ ⌈a⌉₊)]
          linarith
        linarith
      · push_cast [Nat.cast_sub (by omega : 1 ≤ ⌈a⌉₊)]
        linarith

theorem scanXs_length (start bound step : ℝ) :
    (scanXs start bound step).length = ⌈(bound - start) / step⌉₊ := by
  rw [scanXs, List.length_map, List.length_range]

theorem mem_scanXs {x start bound step : ℝ} :
    x ∈ scanXs start bound step ↔
      ∃ i : ℕ, i < ⌈(bound - start) / step⌉₊ ∧ x = start + i * step := by
  simp only [scanXs, List.mem_map, List.mem_range]
  constructor
  · rintro ⟨i, hi, hx⟩; exact ⟨i, hi, hx.symm⟩
  · rintro ⟨i, hi, hx⟩; exact ⟨i, hi, hx.symm⟩

/-- `scanXs` is exactly the unfolding of `x = start; while x < bound: visit;
x += step` when the step is positive: this certifies both that the embedded
closed form is the source's loop and that the loop terminates. -/
theorem scanXs_loop {step : ℝ} (hstep : 0 < step) (start bound : ℝ) :
    scanXs start bound step =
      if start < bound then start :: scanXs (start + step) bound step else [] := by
  rcases lt_or_le start bound with hlt | hge
  · rw [if_pos hlt]
    have ht : 0 < (bound - start) / step := div_pos (by linarith) hstep
    have hn : 1 ≤ ⌈(bound - start) / step⌉₊ := Nat.one_le_ceil_iff.mpr ht
    have hshift : (bound - (start + step)) / step = (bound - start) / step - 1 := by
      rw [show bound - (start + step) = bound - start - step by ring, sub_div,
        div_self hstep.ne']
    have hcount : ⌈(bound - (start + step)) / step⌉₊ = ⌈(bound - start) / step⌉₊ - 1 := by
      rw [hshift, natCeil_sub_one]
    obtain ⟨m, hm⟩ : ∃ m, ⌈(bound - start) / step⌉₊ = m + 1 :=
      ⟨⌈(bound - start) / step⌉₊ - 1, by omega⟩
    simp only [scanXs, hcount, hm, Nat.add_sub_cancel]
    rw [List.range_succ_eq_map]
    simp only [List.map_cons, List.map_map, Nat.cast_zero, zero_mul, add_zero]
    congr 1
    apply List.map_congr_left
    intro i _
    simp only [Function.comp_apply]
    push_cast
    ring
  · rw [if_neg (not_lt.mpr hge)]
    have h0 : ⌈(bound - start) / step⌉₊ = 0 :=
      Nat.ceil_eq_zero.mpr (div_nonpos_of_nonpos_of_nonneg (by linarith) hstep.le)
    rw [scanXs, h0]
    rfl

/-! ## The axis-aligned rectangle: concrete evaluation lemmas -/

/-- The rectangle polygon `[(0,0),(W,0),(W,H),(0,H)]`. -/
def rectPoly (W H : ℝ) : Polygon := [(0, 0), (W, 0), (W, H), (0, H)]

theorem edges_rect (W H : ℝ) :
    edges (rectPoly W H) =
      [((0, 0), (W, 0)), ((W, 0), (W, H)), ((W, H), (0, H)), ((0, H), (0, 0))] := rfl

theorem onSegment_horiz {x1 x2 yy x y : ℝ} :
    onSegment (x1, yy) (x2, yy) (x, y) ↔ y = yy ∧ min x1 x2 ≤ x ∧ x ≤ max x1 x2 := by
  simp only [onSegment, min_self, max_self]
  constructor
  · rintro ⟨_, hx1, hx2, hy1, hy2⟩
    exact ⟨le_antisymm hy2 hy1, hx1, hx2⟩
  · rintro ⟨rfl, hx1, hx2⟩
    exact ⟨by ring, hx1, hx2, le_refl _, le_refl _⟩

theorem onSegment_vert {xx y1 y2 x y : ℝ} :
    onSegment (xx, y1) (xx, y2) (x, y) ↔ x = xx ∧ min y1 y2 ≤ y ∧ y ≤ max y1 y2 := by
  simp only [onSegment, min_self, max_self]
  constructor
  · rintro ⟨_, hx1, hx2, hy1, hy2⟩
    exact ⟨le_antisymm hx2 hx1, hy1, hy2⟩
  · rintro ⟨rfl, hy1, hy2⟩
    exact ⟨by ring, le_refl _, le_refl _, hy1, hy2⟩

theorem onBoundary_rect {W H : ℝ} (hW : 0 < W) (hH : 0 < H) (x y : ℝ) :
    onBoundary (rectPoly W H) (x, y) ↔
      (y = 0 ∧ 0 ≤ x ∧ x ≤ W) ∨ (x = W ∧ 0 ≤ y ∧ y ≤ H) ∨
        (y = H ∧ 0 ≤ x ∧ x ≤ W) ∨ (x = 0 ∧ 0 ≤ y ∧ y ≤ H) := by
  rw [onBoundary, edges_rect]
  constructor
  · rintro ⟨e, he, hseg⟩
    simp only [List.mem_cons, List.not_mem_nil, or_false] at he
    rcases he with rfl | rfl | rfl | rfl
    · left
      have h := onSegment_horiz.mp hseg
      rwa [min_eq_left hW.le, max_eq_right hW.le] at h
    · right; left
      have h := onSegment_vert.mp hseg
      rwa [min_eq_left hH.le, max_eq_right hH.le] at h
    · right; right; left
      have h := onSegment_horiz.mp hseg
      rwa [min_eq_right hW.le, max_eq_left hW.le] at h
    · right; right; right
      have h := onSegment_vert.mp hseg
      rwa [min_eq_right hH.le, max_eq_left hH.le] at h
  · rintro (⟨hy, hx0, hxW⟩ | ⟨hx, hy0, hyH⟩ | ⟨hy, hx0, hxW⟩ | ⟨hx, hy0, hyH⟩)
    · exact ⟨((0, 0), (W, 0)), by simp, onSegment_horiz.mpr
        ⟨hy, by rwa [min_eq_left hW.le], by rwa [max_eq_right hW.le]⟩⟩
    · exact ⟨((W, 0), (W, H)), by simp, onSegment_vert.mpr
        ⟨hx, by rwa [min_eq_left hH.le], by rwa [max_eq_right hH.le]⟩⟩
    · exact ⟨((W, H), (0, H)), by simp, onSegment_horiz.mpr
        ⟨hy, by rwa [min_eq_right hW.le], by rwa [max_eq_left hW.le]⟩⟩
    · exact ⟨((0, H), (0, 0)), by simp, onSegment_vert.mpr
        ⟨hx, by rwa [min_eq_right hH.le], by rwa [max_eq_left hH.le]⟩⟩

theorem crossesRay_rect_bottom {W x y : ℝ} :
    crossesRay ((0 : ℝ), (0 : ℝ)) (W, 0) (x, y) ↔ False := by
  simp only [crossesRay, iff_false, not_and, not_lt]
  rintro ((⟨h1, h2⟩ | ⟨h1, h2⟩)) <;> linarith

theorem crossesRay_rect_right {W H x y : ℝ} (hH : 0 < H) :
    crossesRay ((W : ℝ), (0 : ℝ)) (W, H) (x, y) ↔ (0 ≤ y ∧ y < H) ∧ x < W := by
  simp only [crossesRay]
  constructor
  · rintro ⟨(⟨h1, h2⟩ | ⟨h1, h2⟩), hx⟩
    · refine ⟨⟨h1, h2⟩, ?_⟩
      rw [sub_self, zero_mul, zero_div, add_zero] at hx
      exact hx
    · exact False.elim (by linarith)
  · rintro ⟨⟨h1, h2⟩, hx⟩
    exact ⟨Or.inl ⟨h1, h2⟩, by rw [sub_self, zero_mul, zero_div, add_zero]; exact hx⟩

theorem crossesRay_rect_top {W H x y : ℝ} :
    crossesRay ((W : ℝ), (H : ℝ)) ((0 : ℝ), H) (x, y) ↔ False := by
  simp only [crossesRay, iff_false, not_and, not_lt]
  rintro ((⟨h1, h2⟩ | ⟨h1, h2⟩)) <;> linarith

theorem crossesRay_rect_left {H x y : ℝ} (hH : 0 < H) :
    crossesRay ((0 : ℝ), (H : ℝ)) ((0 : ℝ), (0 : ℝ)) (x, y) ↔ (0 ≤ y ∧ y < H) ∧ x < 0 := by
  simp only [crossesRay]
  constructor
  · rintro ⟨(⟨h1, h2⟩ | ⟨h1, h2⟩), hx⟩
    · exact False.elim (by linarith)
    · refine ⟨⟨h1, h2⟩, ?_⟩
      rw [sub_self, zero_mul, zero_div, add_zero] at hx
      exact hx
  · rintro ⟨⟨h1, h2⟩, hx⟩
    exact ⟨Or.inr ⟨h1, h2⟩, by rw [sub_self, zero_mul, zero_div, add_zero]; exact hx⟩

theorem crossCount_rect {W H : ℝ} (hH : 0 < H) (x y : ℝ) :
    crossCount (rectPoly W H) (x, y) =
      (if (0 ≤ y ∧ y < H) ∧ x < W then 1 else 0) +
        (if (0 ≤ y ∧ y < H) ∧ x < 0 then 1 else 0) := by
  classical
  rw [crossCount, edges_rect]
  simp only [List.map_cons, List.map_nil, List.sum_cons, List.sum_nil,
    crossesRay_rect_bottom, crossesRay_rect_right hH, crossesRay_rect_top,
    crossesRay_rect_left hH, if_false, add_zero, zero_add]

theorem contains_rect {W H : ℝ} (hW : 0 < W) (hH : 0 < H) (x y : ℝ) :
    contains (rectPoly W H) (x, y) ↔ 0 < x ∧ x < W ∧ 0 < y ∧ y < H := by
  classical
  rw [contains, crossCount_rect hH, onBoundary_rect hW hH]
  constructor
  · rintro ⟨hnb, hodd⟩
    by_cases hA : (0 ≤ y ∧ y < H) ∧ x < W <;> by_cases hB : (0 ≤ y ∧ y < H) ∧ x < 0
    · rw [if_pos hA, if_pos hB] at hodd
      rw [Nat.odd_iff] at hodd
      norm_num at hodd
    · obtain ⟨⟨hy0, hyH⟩, hxW⟩ := hA
      have hx0 : 0 ≤ x := by
        by_contra hneg
        exact hB ⟨⟨hy0, hyH⟩, lt_of_not_le hneg⟩
      refine ⟨?_, hxW, ?_, hyH⟩
      · rcases eq_or_lt_of_le hx0 with heq | hlt
        · exact absurd (Or.inr (Or.inr (Or.inr ⟨heq.symm, hy0, hyH.le⟩))) hnb
        · exact hlt
      · rcases eq_or_lt_of_le hy0 with heq | hlt
        · exact absurd (Or.inl ⟨heq.symm, hx0, hxW.le⟩) hnb
        · exact hlt
    · obtain ⟨hYc, hx0⟩ := hB
      exact absurd ⟨hYc, hx0.trans hW⟩ hA
    · rw [if_neg hA, if_neg hB] at hodd
      rw [Nat.odd_iff] at hodd
      norm_num at hodd
  · rintro ⟨hx0, hxW, hy0, hyH⟩
    refine ⟨?_, ?_⟩
    · rintro (⟨h, _, _⟩ | ⟨h, _, _⟩ | ⟨h, _, _⟩ | ⟨h, _, _⟩) <;> linarith
    · rw [if_pos ⟨⟨hy0.le, hyH⟩, hxW⟩, if_neg (fun h => absurd h.2 (not_lt.mpr hx0.le))]
      exact ⟨0, by norm_num⟩

theorem polyRegion_rect {W H : ℝ} (hW : 0 < W) (hH : 0 < H) :
    polyRegion (rectPoly W H) = {p : Pt | 0 ≤ p.1 ∧ p.1 ≤ W ∧ 0 ≤ p.2 ∧ p.2 ≤ H} := by
  ext p
  obtain ⟨x, y⟩ := p
  simp only [polyRegion, Set.mem_setOf_eq, contains_rect hW hH, onBoundary_rect hW hH]
  constructor
  · rintro (⟨h1, h2, h3, h4⟩ | ⟨h1, h2, h3⟩ | ⟨h1, h2, h3⟩ | ⟨h1, h2, h3⟩ | ⟨h1, h2, h3⟩) <;>
      exact ⟨by linarith, by linarith, by linarith, by linarith⟩
  · rintro ⟨hx0, hxW, hy0, hyH⟩
    rcases eq_or_lt_of_le hx0 with hx | hx
    · exact Or.inr (Or.inr (Or.inr (Or.inr ⟨hx.symm, hy0, hyH⟩)))
    rcases eq_or_lt_of_le hxW with hx' | hx'
    · exact Or.inr (Or.inr (Or.inl ⟨hx', hy0, hyH⟩))
    rcases eq_or_lt_of_le hy0 with hy | hy
    · exact Or.inr (Or.inl ⟨hy.symm, hx0, hxW⟩)
    rcases eq_or_lt_of_le hyH with hy' | hy'
    · exact Or.inr (Or.inr (Or.inr (Or.inl ⟨hy', hx0, hxW⟩)))
    exact Or.inl ⟨hx, hx', hy, hy'⟩

/-! ## Behaviour of the point-insertion search -/

theorem findFirstInside_spec (P : Polygon) : ∀ l : List Pt,
    (∃ c pre post, findFirstInside P l = some c ∧ l = pre ++ c :: post ∧ contains P c ∧
       ∀ d ∈ pre, ¬ contains P d) ∨
      (findFirstInside P l = none ∧ ∀ c ∈ l, ¬ contains P c)
  | [] => Or.inr ⟨rfl, by simp⟩
  | c :: cs => by
    classical
    by_cases hc : contains P c
    · exact Or.inl ⟨c, [], cs, by rw [findFirstInside, if_pos hc], by simp, hc, by simp⟩
    · rcases findFirstInside_spec P cs with ⟨d, pre, post, heq, hsplit, hd, hpre⟩ | ⟨heq, hall⟩
      · refine Or.inl ⟨d, c :: pre, post, ?_, by simp [hsplit], hd, ?_⟩
        · rw [findFirstInside, if_neg hc, heq]
        · intro e he
          rcases List.mem_cons.mp he with rfl | he'
          · exact hc
          · exact hpre e he'
      · refine Or.inr ⟨?_, ?_⟩
        · rw [findFirstInside, if_neg hc, heq]
        · intro e he
          rcases List.mem_cons.mp he with rfl | he'
          · exact hc
          · exact hall e he'

theorem findFirstInside_cons_pos {P : Polygon} {c : Pt} (cs : List Pt) (h : contains P c) :
    findFirstInside P (c :: cs) = some c := by
  classical
  rw [findFirstInside, if_pos h]

theorem findFirstInside_mem {P : Polygon} {l : List Pt} {c : Pt}
    (h : findFirstInside P l = some c) : contains P c ∧ c ∈ l := by
  rcases findFirstInside_spec P l with ⟨d, pre, post, heq, hsplit, hd, _⟩ | ⟨heq, _⟩
  · rw [h] at heq
    obtain rfl : d = c := by injection heq.symm
    exact ⟨hd, by rw [hsplit]; simp⟩
  · rw [h] at heq
    cases heq

theorem walkPoint_eq_combo (v t : Pt) (d : ℝ) (i : ℕ) :
    walkPoint v t d i = (1 - (i : ℝ) * 2 / d) • v + ((i : ℝ) * 2 / d) • t := by
  apply Prod.ext
  · simp only [walkPoint, Prod.fst_add, Prod.smul_fst, smul_eq_mul]
    ring
  · simp only [walkPoint, Prod.snd_add, Prod.smul_snd, smul_eq_mul]
    ring

theorem pdist_walkPoint (v t : Pt) (hd0 : 0 < pdist v t) (i : ℕ) :
    pdist v (walkPoint v t (pdist v t) i) = 2 * i := by
  have hdpos : pdist v t ≠ 0 := hd0.ne'
  have hs : distSq v (walkPoint v t (pdist v t) i) =
      ((i : ℝ) * 2 / pdist v t) ^ 2 * distSq v t := by
    simp only [distSq, walkPoint]
    ring
  rw [pdist, hs, Real.sqrt_mul (sq_nonneg _), Real.sqrt_sq (by positivity)]
  have : Real.sqrt (distSq v t) = pdist v t := rfl
  rw [this]
  field_simp
  ring

/-- The number of walk candidates: `range(1, steps)` is empty when the
distance to the target is below 4, and starts at `i = 1` otherwise. -/
theorem walkList_eq_nil {d : ℝ} (h : d < 4) :
    List.range' 1 (⌊d / 2⌋₊ - 1) = [] := by
  have h1 : ⌊d / 2⌋₊ < 2 := by
    rw [Nat.floor_lt' (by norm_num)]
    push_cast
    linarith
  rw [show ⌊d / 2⌋₊ - 1 = 0 by omega]
  rfl

theorem walkList_cons {d : ℝ} (h : 4 ≤ d) :
    ∃ n, List.range' 1 (⌊d / 2⌋₊ - 1) = 1 :: List.range' 2 n := by
  have h2 : 2 ≤ ⌊d / 2⌋₊ := Nat.le_floor (by push_cast; linarith)
  refine ⟨⌊d / 2⌋₊ - 2, ?_⟩
  rw [show ⌊d / 2⌋₊ - 1 = (⌊d / 2⌋₊ - 2) + 1 by omega]
  rw [List.range'_succ]

/-- When the vertex sits on the representative point, the search returns the
representative point itself. -/
theorem find_internal_spot_self {P : Polygon} {v : Pt} (r : ℝ)
    (h : v = representative_point P) : find_internal_spot P v r = representative_point P := by
  rw [find_internal_spot]
  rw [if_pos (pdist_eq_zero_iff.mpr h)]

/-- When the representative point is closer than 4 length units, the walk has
no candidates and the search returns the representative point. -/
theorem find_internal_spot_of_close {P : Polygon} {v : Pt} (r : ℝ)
    (h : pdist v (representative_point P) < 4) :
    find_internal_spot P v r = representative_point P := by
  rw [find_internal_spot]
  by_cases h0 : pdist v (representative_point P) = 0
  · rw [if_pos h0]
  · rw [if_neg h0]
    simp only [walkList_eq_nil h, List.map_nil]
    rfl

/-- When the representative point is at least 4 away and the first walk point
(at distance 2 from the vertex) is inside the polygon, the search returns that
first walk point. -/
theorem find_internal_spot_eq_walkOne {P : Polygon} {v : Pt} (r : ℝ)
    (hd : 4 ≤ pdist v (representative_point P))
    (hc : contains P
      (walkPoint v (representative_point P) (pdist v (representative_point P)) 1)) :
    find_internal_spot P v r =
      walkPoint v (representative_point P) (pdist v (representative_point P)) 1 := by
  have hd0 : pdist v (representative_point P) ≠ 0 := by
    intro h0
    rw [h0] at hd
    linarith
  obtain ⟨n, hn⟩ := walkList_cons hd
  have hfind : findFirstInside P
      (List.map (walkPoint v (representative_point P) (pdist v (representative_point P)))
        (List.range' 1 (⌊pdist v (representative_point P) / 2⌋₊ - 1))) =
      some (walkPoint v (representative_point P) (pdist v (representative_point P)) 1) := by
    rw [hn, List.map_cons]
    exact findFirstInside_cons_pos _ hc
  rw [find_internal_spot, if_neg hd0]
  simp only [hfind]

/-- `find_internal_spot` always returns a point inside the polygon, provided
the polygon has an interior point (so that the representative point is
interior). -/
theorem find_internal_spot_contains {P : Polygon} (v : Pt) (r : ℝ)
    (hne : ∃ p, contains P p) : contains P (find_internal_spot P v r) := by
  have ht := representative_point_contains hne
  rw [find_internal_spot]
  by_cases h0 : pdist v (representative_point P) = 0
  · rw [if_pos h0]
    exact ht
  · rw [if_neg h0]
    rcases findFirstInside_spec P
        (List.map (walkPoint v (representative_point P) (pdist v (representative_point P)))
          (List.range' 1 (⌊pdist v (representative_point P) / 2⌋₊ - 1)))
      with ⟨c, pre, post, heq, _, hc, _⟩ | ⟨heq, _⟩
    · simp only [heq]
      exact hc
    · simp only [heq]
      exact ht

/-- Under the hypothesis that the first walk point is interior whenever the
representative point is at least 4 away, the inserted point lands within 4
length units of the vertex. -/
theorem find_internal_spot_close {P : Polygon} (v : Pt) (r : ℝ)
    (h : 4 ≤ pdist v (representative_point P) →
      contains P (walkPoint v (representative_point P) (pdist v (representative_point P)) 1)) :
    pdist v (find_internal_spot P v r) ≤ 4 := by
  rcases lt_or_le (pdist v (representative_point P)) 4 with hlt | hge
  · rw [find_internal_spot_of_close r hlt]
    linarith
  · rw [find_internal_spot_eq_walkOne r hge (h hge),
      pdist_walkPoint v _ (by linarith : 0 < pdist v (representative_point P))]
    push_cast
    norm_num

/-- In the walk case the inserted point is at distance exactly 2. -/
theorem find_internal_spot_dist_two {P : Polygon} (v : Pt) (r : ℝ)
    (hge : 4 ≤ pdist v (representative_point P))
    (hc : contains P
      (walkPoint v (representative_point P) (pdist v (representative_point P)) 1)) :
    pdist v (find_internal_spot P v r) = 2 := by
  rw [find_internal_spot_eq_walkOne r hge hc,
    pdist_walkPoint v _ (by linarith : 0 < pdist v (representative_point P))]
  push_cast
  ring

/-! ## Behaviour of the repair fold -/

theorem seedPoints_ne_nil (P : Polygon) (pts : List Pt) : seedPoints P pts ≠ [] := by
  rw [seedPoints]
  split_ifs with h1 h2
  · exact List.cons_ne_nil _ _
  · exact List.cons_ne_nil _ _
  · exact h1

theorem seedPoints_mem {P : Polygon} {pts : List Pt} :
    ∀ p ∈ seedPoints P pts, p ∈ pts ∨ p = centroid P ∨ p = representative_point P := by
  intro p hp
  rw [seedPoints] at hp
  split_ifs at hp with h1 h2
  · exact Or.inr (Or.inl (by simpa using hp))
  · exact Or.inr (Or.inr (by simpa using hp))
  · exact Or.inl hp

theorem foldl_repairStep_extends (P : Polygon) (r : ℝ) :
    ∀ (l : List Pt) (cur : List Pt), ∃ tail, l.foldl (repairStep P r) cur = cur ++ tail
  | [], cur => ⟨[], by simp⟩
  | v :: vs, cur => by
    classical
    obtain ⟨tail, htail⟩ := foldl_repairStep_extends P r vs (repairStep P r cur v)
    rw [List.foldl_cons, htail, repairStep]
    split_ifs
    · exact ⟨[find_internal_spot P v r] ++ tail, by simp⟩
    · exact ⟨tail, rfl⟩

theorem foldl_repairStep_mem (P : Polygon) (r : ℝ) :
    ∀ (l : List Pt) (cur : List Pt) (p : Pt),
      p ∈ l.foldl (repairStep P r) cur → p ∈ cur ∨ ∃ v ∈ l, p = find_internal_spot P v r
  | [], _, p => fun h => Or.inl (by simpa using h)
  | v :: vs, cur, p => by
    classical
    intro h
    rw [List.foldl_cons] at h
    rcases foldl_repairStep_mem P r vs _ p h with hc | ⟨w, hw, hpw⟩
    · rw [repairStep] at hc
      split_ifs at hc with hfar
      · rcases List.mem_append.mp hc with h1 | h1
        · exact Or.inl h1
        · exact Or.inr ⟨v, by simp, by simpa using h1⟩
      · exact Or.inl hc
    · exact Or.inr ⟨w, by simp [hw], hpw⟩

theorem foldl_repairStep_covers (P : Polygon) (r : ℝ) :
    ∀ (l : List Pt) (cur : List Pt),
      (∀ v ∈ l, pdist v (find_internal_spot P v r) ≤ r) →
      ∀ v ∈ l, ∃ p ∈ l.foldl (repairStep P r) cur, pdist v p ≤ r
  | [], cur, _, v => by simp
  | w :: ws, cur, hfis, v => by
    classical
    intro hv
    rw [List.foldl_cons]
    rcases List.mem_cons.mp hv with rfl | hv'
    · obtain ⟨tail, htail⟩ := foldl_repairStep_extends P r ws (repairStep P r cur v)
      by_cases hfar : mpFar cur v r
      · refine ⟨find_internal_spot P v r, ?_, hfis v (by simp)⟩
        rw [htail, repairStep, if_pos hfar]
        simp
      · rw [mpFar] at hfar
        push_neg at hfar
        obtain ⟨p, hp, hple⟩ := hfar
        refine ⟨p, ?_, by rwa [pdist_comm]⟩
        rw [htail]
        have hmem : p ∈ repairStep P r cur v := by
          rw [repairStep]
          split_ifs
          · exact List.mem_append.mpr (Or.inl hp)
          · exact hp
        exact List.mem_append.mpr (Or.inl hmem)
    · exact foldl_repairStep_covers P r ws _ (fun u hu => hfis u (by simp [hu])) v hv'

theorem ensure_coverage_covers {P : Polygon} {pts : List Pt} {r : ℝ}
    (hfis : ∀ v ∈ exteriorCoords P, pdist v (find_internal_spot P v r) ≤ r) :
    ∀ v ∈ exteriorCoords P, ∃ p ∈ ensure_coverage P pts r, pdist v p ≤ r :=
  foldl_repairStep_covers P r (exteriorCoords P) (seedPoints P pts) hfis

theorem ensure_coverage_ne_nil (P : Polygon) (pts : List Pt) (r : ℝ) :
    ensure_coverage P pts r ≠ [] := by
  obtain ⟨tail, htail⟩ := foldl_repairStep_extends P r (exteriorCoords P) (seedPoints P pts)
  rw [ensure_coverage, htail]
  intro h
  exact seedPoints_ne_nil P pts (by simpa using List.append_eq_nil.mp h |>.1)

theorem ensure_coverage_mem {P : Polygon} {pts : List Pt} {r : ℝ} :
    ∀ p ∈ ensure_coverage P pts r,
      p ∈ seedPoints P pts ∨ ∃ v ∈ exteriorCoords P, p = find_internal_spot P v r :=
  fun p hp => foldl_repairStep_mem P r (exteriorCoords P) (seedPoints P pts) p hp

/-! ## Convex polygons: the first walk point is interior -/

theorem walkOne_contains_of_convex {P : Polygon} {v : Pt}
    (hconv : Convex ℝ (containsSet P)) (hopen : IsOpen (containsSet P))
    (hne : ∃ p, contains P p) (hv : v ∈ closure (containsSet P))
    (hd : 4 ≤ pdist v (representative_point P)) :
    contains P (walkPoint v (representative_point P) (pdist v (representative_point P)) 1) := by
  have ht : representative_point P ∈ containsSet P := representative_point_contains hne
  have hd0 : (0 : ℝ) < pdist v (representative_point P) := by linarith
  have hs1 : (0 : ℝ) < (1 : ℕ) * 2 / pdist v (representative_point P) := by positivity
  have hslt : ((1 : ℕ) : ℝ) * 2 / pdist v (representative_point P) ≤ 1 / 2 := by
    rw [div_le_iff₀ hd0]
    push_cast
    linarith
  have hs2 : 0 ≤ 1 - ((1 : ℕ) : ℝ) * 2 / pdist v (representative_point P) := by linarith
  have hcombo := hconv.combo_closure_interior_mem_interior hv
    (by rwa [hopen.interior_eq]) hs2 hs1 (by ring)
  rw [hopen.interior_eq] at hcombo
  rw [walkPoint_eq_combo]
  exact hcombo

theorem ensure_coverage_covers_of_convex {P : Polygon} {pts : List Pt} {r : ℝ}
    (hr : 4 ≤ r) (hconv : Convex ℝ (containsSet P)) (hopen : IsOpen (containsSet P))
    (hne : ∃ p, contains P p) (hcl : ∀ v ∈ exteriorCoords P, v ∈ closure (containsSet P)) :
    ∀ v ∈ exteriorCoords P, ∃ p ∈ ensure_coverage P pts r, pdist v p ≤ r := by
  apply ensure_coverage_covers
  intro v hv
  have h4 := find_internal_spot_close v r
    (fun hd => walkOne_contains_of_convex hconv hopen hne (hcl v hv) hd)
  linarith

/-! ## Verifier monotonicity machinery -/

theorem disk_mono {c : Pt} {r1 r2 : ℝ} (h : r1 ≤ r2) : disk c r1 ⊆ disk c r2 := by
  intro p hp
  rw [disk] at hp
  split_ifs at hp with h1
  · rw [disk, if_pos (lt_of_lt_of_le h1 h)]
    rw [Set.mem_setOf_eq] at hp ⊢
    nlinarith
  · exact absurd hp (Set.not_mem_empty p)

theorem unionDisks_mono {points : List Pt} {r1 r2 : ℝ} (h : r1 ≤ r2) :
    unionDisks points r1 ⊆ unionDisks points r2 := by
  intro x hx
  rw [unionDisks] at hx ⊢
  obtain ⟨p, hp, hxp⟩ := Set.mem_iUnion₂.mp hx
  exact Set.mem_iUnion₂.mpr ⟨p, hp, disk_mono h hxp⟩

theorem coverageAdequate_mono {P : Polygon} {points : List Pt} {er1 er2 : ℝ}
    (h : er1 ≤ er2) (had : coverageAdequate P points er1) :
    coverageAdequate P points er2 := by
  rcases had with hsub | harea
  · exact Or.inl fun x hx => unionDisks_mono h (hsub hx)
  · right
    calc (999 / 1000 : ℝ≥0∞) * MeasureTheory.volume (polyRegion P) ≤
        MeasureTheory.volume (unionDisks points er1 ∩ polyRegion P) := harea
      _ ≤ MeasureTheory.volume (unionDisks points er2 ∩ polyRegion P) :=
        MeasureTheory.measure_mono (Set.inter_subset_inter_left _ (unionDisks_mono h))

/-! ## Claim theorems -/

/-- C2: for every polygon, every non-empty placement set and every
`effectiveRadius = radius * safetyFactor`, the Coverage Verifier
(`check_geometric_coverage`) returns true if and only if the union of disks of
`effectiveRadius` centred at the placement points fully contains the polygon,
or the area of the intersection of that union with the polygon is at least
99.9% of the polygon's area. -/
theorem C2_verifier_iff (P : Polygon) (points : List Pt) (radius safety_factor : ℝ)
    (hne : points ≠ []) :
    check_geometric_coverage P points radius safety_factor ↔
      ((∀ x ∈ polyRegion P, ∃ p ∈ points, x ∈ disk p (radius * safety_factor)) ∨
        (999 / 1000 : ℝ≥0∞) * MeasureTheory.volume (polyRegion P) ≤
          MeasureTheory.volume
            (unionDisks points (radius * safety_factor) ∩ polyRegion P)) := by
  rw [check_geometric_coverage, coverageAdequate]
  constructor
  · rintro ⟨-, hsub | harea⟩
    · left
      intro x hx
      obtain ⟨p, hp, hxp⟩ := Set.mem_iUnion₂.mp (hsub hx)
      exact ⟨p, hp, hxp⟩
    · exact Or.inr harea
  · rintro (hsub | harea)
    · refine ⟨hne, Or.inl fun x hx => ?_⟩
      obtain ⟨p, hp, hxp⟩ := hsub x hx
      exact Set.mem_iUnion₂.mpr ⟨p, hp, hxp⟩
    · exact ⟨hne, Or.inr harea⟩

/-- Witness for C2 at a concrete input: the rectangle `[0,1]²` with the single
placement point `(0,0)`. -/
theorem C2_verifier_iff_witness :
    check_geometric_coverage (rectPoly 1 1) [((0 : ℝ), (0 : ℝ))] 1 1 ↔
      ((∀ x ∈ polyRegion (rectPoly 1 1), ∃ p ∈ [((0 : ℝ), (0 : ℝ))], x ∈ disk p (1 * 1)) ∨
        (999 / 1000 : ℝ≥0∞) * MeasureTheory.volume (polyRegion (rectPoly 1 1)) ≤
          MeasureTheory.volume
            (unionDisks [((0 : ℝ), (0 : ℝ))] (1 * 1) ∩ polyRegion (rectPoly 1 1))) :=
  C2_verifier_iff (rectPoly 1 1) [((0 : ℝ), (0 : ℝ))] 1 1 (by simp)

/-- C5: the Coverage Verifier never propagates an internal exception to the
caller: for an empty placement set it returns `false`, and on any input where
the internal geometric computation fails it catches the error and returns
`true` (fail-open "adequate"). -/
theorem C5_verifier_never_raises :
    (∀ (points : List Pt) (inner : Except String Bool),
        ∃ b : Bool, check_geometric_coverage_run points inner = .ok b) ∧
      (∀ inner : Except String Bool, check_geometric_coverage_run [] inner = .ok false) ∧
      (∀ (p : Pt) (ps : List Pt) (e : String),
        check_geometric_coverage_run (p :: ps) (.error e) = .ok true) := by
  refine ⟨?_, ?_, ?_⟩
  · intro points inner
    rw [check_geometric_coverage_run.eq_def]
    split_ifs
    · exact ⟨false, rfl⟩
    · match inner with
      | .ok b => exact ⟨b, rfl⟩
      | .error e => exact ⟨true, rfl⟩
  · intro inner
    rfl
  · intro p ps e
    rfl

/-- C7: the Coverage Verifier is monotonic in the effective radius: with the
polygon and placement set fixed, if it reports adequate at effective radius
`r1 * sf1` then it reports adequate at any effective radius `r2 * sf2 ≥ r1 * sf1`. -/
theorem C7_verifier_monotone (P : Polygon) (points : List Pt) (r1 sf1 r2 sf2 : ℝ)
    (hle : r1 * sf1 ≤ r2 * sf2) (h1 : check_geometric_coverage P points r1 sf1) :
    check_geometric_coverage P points r2 sf2 :=
  ⟨h1.1, coverageAdequate_mono hle h1.2⟩

/-- Witness for C7: the 100×50 rectangle with one central point is adequate at
effective radius 60, hence also at 70. -/
theorem C7_verifier_monotone_witness :
    check_geometric_coverage (rectPoly 100 50) [((50 : ℝ), (25 : ℝ))] 70 1 := by
  refine C7_verifier_monotone (rectPoly 100 50) _ 60 1 70 1 (by norm_num) ⟨by simp, Or.inl ?_⟩
  rw [polyRegion_rect (by norm_num) (by norm_num)]
  intro p hp
  obtain ⟨h1, h2, h3, h4⟩ := hp
  rw [unionDisks]
  refine Set.mem_iUnion₂.mpr ⟨((50 : ℝ), (25 : ℝ)), by simp, ?_⟩
  rw [disk, if_pos (by norm_num : (0 : ℝ) < 60 * 1)]
  rw [Set.mem_setOf_eq, distSq]
  show (p.1 - 50) ^ 2 + (p.2 - 25) ^ 2 ≤ (60 * 1) ^ 2
  nlinarith

/-- C3: for every polygon of positive area, the Solution Set Builder returns
exactly 3 solutions, in the fixed order Standard Grid, Offset Grid, Hexagonal
Packing, and each solution's point list has length at least 1. -/
theorem C3_solution_set (P : Polygon) (radius safety_factor : ℝ)
    (harea : 0 < polyArea P) :
    (generate_multiple_solutions P radius safety_factor).map Solution.name =
        ["Option A: Standard Grid", "Option B: Offset Grid",
          "Option C: Hexagonal Packing"] ∧
      (generate_multiple_solutions P radius safety_factor).length = 3 ∧
      ∀ sol ∈ generate_multiple_solutions P radius safety_factor,
        1 ≤ sol.points.length := by
  refine ⟨rfl, rfl, ?_⟩
  intro sol hsol
  rw [generate_multiple_solutions] at hsol
  simp only [List.mem_cons, List.not_mem_nil, or_false] at hsol
  have hlen : ∀ pts : List Pt,
      1 ≤ (ensure_coverage P pts (radius * safety_factor)).length := by
    intro pts
    exact List.length_pos.mpr (ensure_coverage_ne_nil P pts (radius * safety_factor))
  rcases hsol with rfl | rfl | rfl
  · exact hlen _
  · exact hlen _
  · exact hlen _

/-- Witness for C3: the 100×50 rectangle has positive area, and the builder
returns its 3 solutions there. -/
theorem C3_solution_set_witness :
    0 < polyArea (rectPoly 100 50) ∧
      (generate_multiple_solutions (rectPoly 100 50) 40 1).length = 3 := by
  have harea : 0 < polyArea (rectPoly 100 50) := by
    rw [polyArea, shoelace, edges_rect]
    norm_num
  exact ⟨harea, (C3_solution_set (rectPoly 100 50) 40 1 harea).2.1⟩

/-- C8: for every polygon and radius `r > 0` the placement generators'
scan loops terminate with iteration counts derived from the polygon's
bounding box plus one spacing unit: the grid scan emits at most
x-count × y-count points and the hex scan at most row-count × column-count
points, each count being `⌈(bbox span + spacing margin)/spacing⌉₊`. -/
theorem C8_generators_terminate (P : Polygon) (radius : ℝ) (offset : ℝ × ℝ)
    (hr : 0 < radius) :
    (gridScan P radius offset).length ≤
        ⌈(maxX P + gridSpacing radius - (minX P + gridSpacing radius * offset.1)) /
            gridSpacing radius⌉₊ *
          ⌈(maxY P + gridSpacing radius - (minY P + gridSpacing radius * offset.2)) /
            gridSpacing radius⌉₊ ∧
      (hexScan P radius).length ≤
        ⌈(maxY P + radius - (minY P + radius / 2)) / (radius * 1.5 * 0.95)⌉₊ *
          ⌈(maxX P + radius - (minX P + radius / 2)) / (radius * 1.732 * 0.95)⌉₊ := by
  classical
  have hsx : (0 : ℝ) < radius * 1.732 * 0.95 := by nlinarith
  constructor
  · simp only [gridScan, List.length_flatMap]
    set K := ⌈(maxY P + gridSpacing radius - (minY P + gridSpacing radius * offset.2)) /
      gridSpacing radius⌉₊ with hK
    have hbound : ∀ n ∈ (scanXs (minX P + gridSpacing radius * offset.1)
        (maxX P + gridSpacing radius) (gridSpacing radius)).map
          (List.length ∘ fun x => (scanXs (minY P + gridSpacing radius * offset.2)
            (maxY P + gridSpacing radius) (gridSpacing radius)).filterMap fun y =>
              if contains P (x, y) then some (x, y) else none), n ≤ K := by
      intro n hn
      obtain ⟨x, _, rfl⟩ := List.mem_map.mp hn
      calc (List.filterMap _ _).length ≤ _ := List.length_filterMap_le _ _
        _ = K := by rw [scanXs_length]
    calc (List.map _ _).sum ≤ (List.map _ _).length • K :=
          List.sum_le_card_nsmul _ K hbound
      _ = (scanXs (minX P + gridSpacing radius * offset.1)
            (maxX P + gridSpacing radius) (gridSpacing radius)).length * K := by
          rw [List.length_map, smul_eq_mul]
      _ = _ := by rw [scanXs_length]
  · simp only [hexScan, List.length_flatMap]
    set K := ⌈(maxX P + radius - (minX P + radius / 2)) / (radius * 1.732 * 0.95)⌉₊ with hK
    have hbound : ∀ n ∈ (List.range ⌈(maxY P + radius - (minY P + radius / 2)) /
        (radius * 1.5 * 0.95)⌉₊).map
          (List.length ∘ fun row : ℕ =>
            (scanXs (minX P + (if row % 2 = 0 then 0 else radius * 1.732 * 0.95 / 2) +
                radius / 2) (maxX P + radius) (radius * 1.732 * 0.95)).filterMap fun x =>
              if contains P (x, minY P + radius / 2 + (row : ℝ) * (radius * 1.5 * 0.95))
                then some (x, minY P + radius / 2 + (row : ℝ) * (radius * 1.5 * 0.95))
                else none), n ≤ K := by
      intro n hn
      obtain ⟨row, _, rfl⟩ := List.mem_map.mp hn
      have hoff : (0 : ℝ) ≤ if row % 2 = 0 then 0 else radius * 1.732 * 0.95 / 2 := by
        split_ifs
        · exact le_refl _
        · linarith
      calc (List.filterMap _ _).length ≤ _ := List.length_filterMap_le _ _
        _ = ⌈(maxX P + radius -
              (minX P + (if row % 2 = 0 then 0 else radius * 1.732 * 0.95 / 2) +
                radius / 2)) / (radius * 1.732 * 0.95)⌉₊ := by rw [scanXs_length]
        _ ≤ K := by
            rw [hK]
            gcongr
            linarith
    calc (List.map _ _).sum ≤ (List.map _ _).length • K :=
          List.sum_le_card_nsmul _ K hbound
      _ = ⌈(maxY P + radius - (minY P + radius / 2)) / (radius * 1.5 * 0.95)⌉₊ * K := by
          rw [List.length_map, List.length_range, smul_eq_mul]

/-- Witness for C8: the bounds at the 100×50 rectangle with radius 1. -/
theorem C8_generators_terminate_witness :
    (gridScan (rectPoly 100 50) 1 (0, 0)).length ≤
        ⌈(maxX (rectPoly 100 50) + gridSpacing 1 - (minX (rectPoly 100 50) +
            gridSpacing 1 * (0 : ℝ))) / gridSpacing 1⌉₊ *
          ⌈(maxY (rectPoly 100 50) + gridSpacing 1 - (minY (rectPoly 100 50) +
            gridSpacing 1 * (0 : ℝ))) / gridSpacing 1⌉₊ :=
  (C8_generators_terminate (rectPoly 100 50) 1 (0, 0) (by norm_num)).1

/-! ## Grid scan characterisation -/

theorem bounds_rect {W H : ℝ} (hW : 0 ≤ W) (hH : 0 ≤ H) :
    minX (rectPoly W H) = 0 ∧ maxX (rectPoly W H) = W ∧
      minY (rectPoly W H) = 0 ∧ maxY (rectPoly W H) = H := by
  simp [minX, maxX, minY, maxY, rectPoly, List.foldl, min_eq_left hW, min_eq_left hH,
    max_eq_right hW, max_eq_right hH, min_self, max_self, max_eq_left hW, max_eq_left hH]

open Classical in
theorem filterMap_if_eq_filter_map (x : ℝ) (ys : List ℝ) (pred : Pt → Prop) :
    (ys.filterMap fun y => if pred (x, y) then some (x, y) else none) =
      (ys.map fun y => ((x, y) : Pt)).filter fun p => decide (pred p) := by
  induction ys with
  | nil => rfl
  | cons y ys ihy =>
    rw [List.filterMap_cons, List.map_cons, List.filter_cons]
    by_cases h : pred (x, y)
    · rw [if_pos h, ihy, if_pos (by simpa using h)]
    · rw [if_neg h, ihy, if_neg (by simpa using h)]

open Classical in
theorem flatMap_filterMap_eq_product_filter (xs ys : List ℝ) (pred : Pt → Prop) :
    (xs.flatMap fun x => ys.filterMap fun y => if pred (x, y) then some (x, y) else none) =
      (xs.flatMap fun x => ys.map fun y => ((x, y) : Pt)).filter fun p => decide (pred p) := by
  induction xs with
  | nil => rfl
  | cons x xs ih =>
    rw [List.flatMap_cons, List.flatMap_cons, List.filter_append, ih,
      filterMap_if_eq_filter_map x ys pred]

theorem gridScan_mem_elim {P : Polygon} {radius : ℝ} {offset : ℝ × ℝ} {p : Pt}
    (hp : p ∈ gridScan P radius offset) :
    p.1 ∈ scanXs (minX P + gridSpacing radius * offset.1)
        (maxX P + gridSpacing radius) (gridSpacing radius) ∧
      p.2 ∈ scanXs (minY P + gridSpacing radius * offset.2)
        (maxY P + gridSpacing radius) (gridSpacing radius) ∧
      contains P p := by
  classical
  simp only [gridScan] at hp
  obtain ⟨x, hx, hin⟩ := List.mem_flatMap.mp hp
  obtain ⟨y, hy, hif⟩ := List.mem_filterMap.mp hin
  by_cases hc : contains P (x, y)
  · rw [if_pos hc] at hif
    obtain rfl : (x, y) = p := by injection hif
    exact ⟨hx, hy, hc⟩
  · rw [if_neg hc] at hif
    cases hif

/-- C6 (amended): for every polygon, radius and offset ratio, the grid
generator's scan (before repair) is exactly the lattice scanned from
`(minX + offset.1*s, minY + offset.2*s)` stepping by `s` up to `max + s`,
filtered to the points strictly inside the polygon, in scan order — with the
source's cell spacing `s = r * 1.414 * 0.95` (not `r * √2 * 0.95`). -/
theorem C6_grid_scan_lattice (P : Polygon) (radius : ℝ) (offset : ℝ × ℝ) :
    gridScan P radius offset = specGrid1414 P radius offset := by
  classical
  simp only [gridScan, specGrid1414, specLattice]
  exact flatMap_filterMap_eq_product_filter _ _ _

/-- C6 counterexample: with the spec's claimed spacing `r * sqrt 2 * 0.95` the
generated point set differs from what the code produces: on the rectangle
`1343.4 × 1350` with radius `1000`, the code's scan keeps the lattice point
`(1343.3, 1343.3)` while the `√2` lattice has no point inside the polygon. -/
theorem C6_counterexample :
    gridScan (rectPoly 1343.4 1350) 1000 (0, 0) ≠
      specGridSqrt2 (rectPoly 1343.4 1350) 1000 (0, 0) := by
  classical
  obtain ⟨hminX, hmaxX, hminY, hmaxY⟩ :=
    bounds_rect (by norm_num : (0 : ℝ) ≤ 1343.4) (by norm_num : (0 : ℝ) ≤ 1350)
  have hs2 : (1.4142 : ℝ) < Real.sqrt 2 :=
    (Real.lt_sqrt (by norm_num)).mpr (by norm_num)
  intro heq
  have hmem : ((1343.3 : ℝ), (1343.3 : ℝ)) ∈ gridScan (rectPoly 1343.4 1350) 1000 (0, 0) := by
    simp only [gridScan]
    refine List.mem_flatMap.mpr ⟨1343.3, ?_, ?_⟩
    · rw [hminX, hmaxX]
      refine mem_scanXs.mpr ⟨1, ?_, ?_⟩
      · rw [Nat.lt_ceil, gridSpacing]
        push_cast
        rw [lt_div_iff₀ (by norm_num)]
        norm_num
      · rw [gridSpacing]
        norm_num
    · refine List.mem_filterMap.mpr ⟨1343.3, ?_, ?_⟩
      · rw [hminY, hmaxY]
        refine mem_scanXs.mpr ⟨1, ?_, ?_⟩
        · rw [Nat.lt_ceil, gridSpacing]
          push_cast
          rw [lt_div_iff₀ (by norm_num)]
          norm_num
        · rw [gridSpacing]
          norm_num
      · rw [if_pos]
        exact (contains_rect (by norm_num) (by norm_num) _ _).mpr (by norm_num)
  have hnil : specGridSqrt2 (rectPoly 1343.4 1350) 1000 (0, 0) = [] := by
    rw [specGridSqrt2, List.filter_eq_nil_iff]
    intro p hp
    rw [specLattice] at hp
    obtain ⟨x, hx, hin⟩ := List.mem_flatMap.mp hp
    obtain ⟨y, hy, rfl⟩ := List.mem_map.mp hin
    rw [hminX, hmaxX] at hx
    obtain ⟨i, hi, rfl⟩ := mem_scanXs.mp hx
    rw [decide_eq_true_eq]
    intro hcont
    obtain ⟨h1, h2, h3, h4⟩ := (contains_rect (by norm_num) (by norm_num) _ _).mp hcont
    rcases Nat.eq_zero_or_pos i with rfl | hipos
    · norm_num at h1
    · have hi1 : (1 : ℝ) ≤ (i : ℝ) := by exact_mod_cast hipos
      have hbig : (1343.49 : ℝ) <
          0 + 1000 * Real.sqrt 2 * 0.95 * (0, 0).1 + (i : ℝ) * (1000 * Real.sqrt 2 * 0.95) := by
        have hpos : (0 : ℝ) < Real.sqrt 2 := Real.sqrt_pos.mpr (by norm_num)
        nlinarith
      nlinarith
  rw [heq, hnil] at hmem
  exact List.not_mem_nil _ hmem

/-! ## Membership facts for the generators and repair -/

theorem hexScan_mem_contains {P : Polygon} {radius : ℝ} {p : Pt}
    (hp : p ∈ hexScan P radius) : contains P p := by
  classical
  simp only [hexScan] at hp
  obtain ⟨row, _, hin⟩ := List.mem_flatMap.mp hp
  obtain ⟨x, _, hif⟩ := List.mem_filterMap.mp hin
  by_cases hc : contains P (x, minY P + radius / 2 + (row : ℝ) * (radius * 1.5 * 0.95))
  · rw [if_pos hc] at hif
    obtain rfl : (x, minY P + radius / 2 + (row : ℝ) * (radius * 1.5 * 0.95)) = p := by
      injection hif
    exact hc
  · rw [if_neg hc] at hif
    cases hif

theorem seedPoints_contains {P : Polygon} {pts : List Pt} (hne : ∃ p, contains P p)
    (hpts : ∀ p ∈ pts, contains P p) : ∀ p ∈ seedPoints P pts, contains P p := by
  intro p hp
  rw [seedPoints] at hp
  split_ifs at hp with h1 h2
  · obtain rfl : p = centroid P := by simpa using hp
    exact h2
  · obtain rfl : p = representative_point P := by simpa using hp
    exact representative_point_contains hne
  · exact hpts p hp

theorem ensure_coverage_contains {P : Polygon} {pts : List Pt} {r : ℝ}
    (hne : ∃ p, contains P p) (hpts : ∀ p ∈ pts, contains P p) :
    ∀ p ∈ ensure_coverage P pts r, contains P p := by
  intro p hp
  rcases ensure_coverage_mem p hp with hseed | ⟨v, _, rfl⟩
  · exact seedPoints_contains hne hpts p hseed
  · exact find_internal_spot_contains v r hne

/-- C4: the Point-Insertion Search returns the target representative point
when the vertex coincides with it; otherwise it walks towards the target in
fixed steps of length 2 (the `i`-th candidate sits at distance `2i` from the
vertex) and returns the first candidate strictly inside the polygon, falling
back to the target when no tested candidate is interior; being a total
function it always terminates, and (the polygon having an interior point) it
always returns a point strictly inside the polygon. -/
theorem C4_point_insertion_search (P : Polygon) (v : Pt) (r : ℝ)
    (hne : ∃ p, contains P p) :
    (v = representative_point P →
        find_internal_spot P v r = representative_point P) ∧
      (∀ i : ℕ, v ≠ representative_point P →
        pdist v (walkPoint v (representative_point P)
          (pdist v (representative_point P)) i) = 2 * i) ∧
      ((∃ pre post,
          (List.range' 1 (⌊pdist v (representative_point P) / 2⌋₊ - 1)).map
              (walkPoint v (representative_point P) (pdist v (representative_point P))) =
            pre ++ find_internal_spot P v r :: post ∧
          contains P (find_internal_spot P v r) ∧ ∀ c ∈ pre, ¬ contains P c) ∨
        (find_internal_spot P v r = representative_point P ∧
          ∀ c ∈ (List.range' 1 (⌊pdist v (representative_point P) / 2⌋₊ - 1)).map
              (walkPoint v (representative_point P) (pdist v (representative_point P))),
            ¬ contains P c)) ∧
      contains P (find_internal_spot P v r) := by
  refine ⟨find_internal_spot_self r, ?_, ?_, find_internal_spot_contains v r hne⟩
  · intro i hvt
    have hd0 : 0 < pdist v (representative_point P) :=
      lt_of_le_of_ne (pdist_nonneg _ _) (Ne.symm (fun h => hvt (pdist_eq_zero_iff.mp h)))
    exact pdist_walkPoint v _ hd0 i
  · by_cases hd : pdist v (representative_point P) = 0
    · refine Or.inr ⟨find_internal_spot_self r (pdist_eq_zero_iff.mp hd), ?_⟩
      rw [hd]
      rw [show ⌊(0 : ℝ) / 2⌋₊ - 1 = 0 by norm_num]
      simp
    · rcases findFirstInside_spec P
          ((List.range' 1 (⌊pdist v (representative_point P) / 2⌋₊ - 1)).map
            (walkPoint v (representative_point P) (pdist v (representative_point P))))
        with ⟨c, pre, post, heq, hsplit, hc, hpre⟩ | ⟨heq, hall⟩
      · have hfis : find_internal_spot P v r = c := by
          rw [find_internal_spot, if_neg hd]
          simp only [heq]
        exact Or.inl ⟨pre, post, by rw [hfis]; exact hsplit, by rw [hfis]; exact hc, hpre⟩
      · have hfis : find_internal_spot P v r = representative_point P := by
          rw [find_internal_spot, if_neg hd]
          simp only [heq]
        exact Or.inr ⟨hfis, hall⟩

/-- Witness for C4: on the 100×50 rectangle (interior point `(50,25)`), the
search from the corner `(0,0)` returns a point strictly inside. -/
theorem C4_point_insertion_search_witness :
    contains (rectPoly 100 50) (find_internal_spot (rectPoly 100 50) (0, 0) 5) :=
  (C4_point_insertion_search (rectPoly 100 50) (0, 0) 5
    ⟨((50 : ℝ), (25 : ℝ)),
      (contains_rect (by norm_num) (by norm_num) 50 25).mpr (by norm_num)⟩).2.2.2

/-- C10: every point of every solution's placement set lies strictly inside
the polygon: generated lattice points are kept only when contained, the
empty-set seed is the centroid only when contained (else the representative
interior point), and every repair-inserted point is either a contained walk
point or the representative interior point. -/
theorem C10_solutions_inside (P : Polygon) (radius safety_factor : ℝ)
    (hne : ∃ p, contains P p) :
    ∀ sol ∈ generate_multiple_solutions P radius safety_factor,
      ∀ p ∈ sol.points, contains P p := by
  intro sol hsol
  rw [generate_multiple_solutions] at hsol
  simp only [List.mem_cons, List.not_mem_nil, or_false] at hsol
  rcases hsol with rfl | rfl | rfl
  · exact ensure_coverage_contains hne fun p hp => (gridScan_mem_elim hp).2.2
  · exact ensure_coverage_contains hne fun p hp => (gridScan_mem_elim hp).2.2
  · exact ensure_coverage_contains hne fun p hp => hexScan_mem_contains hp

/-! ## Rectangle region, shoelace and centroid evaluations -/

theorem containsSet_rect {W H : ℝ} (hW : 0 < W) (hH : 0 < H) :
    containsSet (rectPoly W H) = Set.Ioo 0 W ×ˢ Set.Ioo 0 H := by
  ext p
  obtain ⟨x, y⟩ := p
  rw [containsSet, Set.mem_setOf_eq, contains_rect hW hH, Set.mem_prod]
  simp only [Set.mem_Ioo]
  tauto

theorem shoelace_rect (W H : ℝ) : shoelace (rectPoly W H) = 2 * W * H := by
  rw [shoelace, edges_rect]
  simp only [List.map_cons, List.map_nil, List.sum_cons, List.sum_nil]
  ring

theorem centroid_rect {W H : ℝ} (hW : 0 < W) (hH : 0 < H) :
    centroid (rectPoly W H) = (W / 2, H / 2) := by
  have hsl : shoelace (rectPoly W H) ≠ 0 := by
    rw [shoelace_rect]
    positivity
  rw [centroid, if_neg hsl, shoelace_rect, edges_rect]
  simp only [List.map_cons, List.map_nil, List.sum_cons, List.sum_nil]
  apply Prod.ext
  · show ((0 + W) * (0 * 0 - W * 0) + ((W + W) * (W * H - W * 0) +
      ((W + 0) * (W * H - 0 * H) + ((0 + 0) * (0 * 0 - 0 * H) + 0)))) / (3 * (2 * W * H)) = W / 2
    field_simp
    ring
  · show ((0 + 0) * (0 * 0 - W * 0) + ((0 + H) * (W * H - W * 0) +
      ((H + H) * (W * H - 0 * H) + ((H + 0) * (0 * 0 - 0 * H) + 0)))) / (3 * (2 * W * H)) = H / 2
    field_simp
    ring

theorem rect100_convex : Convex ℝ (containsSet (rectPoly 100 50)) := by
  rw [containsSet_rect (by norm_num) (by norm_num)]
  exact (convex_Ioo (0 : ℝ) 100).prod (convex_Ioo (0 : ℝ) 50)

theorem rect100_open : IsOpen (containsSet (rectPoly 100 50)) := by
  rw [containsSet_rect (by norm_num) (by norm_num)]
  exact isOpen_Ioo.prod isOpen_Ioo

theorem rect100_ne : ∃ p, contains (rectPoly 100 50) p :=
  ⟨((50 : ℝ), (25 : ℝ)), (contains_rect (by norm_num) (by norm_num) 50 25).mpr (by norm_num)⟩

theorem rect100_closure :
    ∀ v ∈ exteriorCoords (rectPoly 100 50), v ∈ closure (containsSet (rectPoly 100 50)) := by
  intro v hv
  rw [containsSet_rect (by norm_num) (by norm_num), closure_prod_eq, closure_Ioo
    (by norm_num : (0 : ℝ) ≠ 100), closure_Ioo (by norm_num : (0 : ℝ) ≠ 50)]
  have h5 : v = ((0 : ℝ), (0 : ℝ)) ∨ v = ((100 : ℝ), (0 : ℝ)) ∨ v = ((100 : ℝ), (50 : ℝ)) ∨
      v = ((0 : ℝ), (50 : ℝ)) ∨ v = ((0 : ℝ), (0 : ℝ)) := by
    simpa [exteriorCoords, rectPoly] using hv
  have hv' : v = ((0 : ℝ), (0 : ℝ)) ∨ v = ((100 : ℝ), (0 : ℝ)) ∨ v = ((100 : ℝ), (50 : ℝ)) ∨
      v = ((0 : ℝ), (50 : ℝ)) := by tauto
  rcases hv' with rfl | rfl | rfl | rfl <;>
    exact Set.mem_prod.mpr ⟨Set.mem_Icc.mpr (by norm_num), Set.mem_Icc.mpr (by norm_num)⟩

/-- C1 (amended): for every polygon whose interior is a convex open set with
the ring vertices in its closure (in particular every convex simple polygon)
and every effective radius at least 4 length units (the counterexample below
shows small radii genuinely fail: the walk inserts points at distance 2 and
the target fallback can sit up to 4 away), every boundary vertex of the
polygon is within the effective radius of some point of every solution's
placement set after Coverage Repair. -/
theorem C1_amended_vertex_coverage (P : Polygon) (radius safety_factor : ℝ)
    (hr : 4 ≤ radius * safety_factor)
    (hconv : Convex ℝ (containsSet P)) (hopen : IsOpen (containsSet P))
    (hne : ∃ p, contains P p)
    (hcl : ∀ v ∈ exteriorCoords P, v ∈ closure (containsSet P)) :
    ∀ sol ∈ generate_multiple_solutions P radius safety_factor,
      ∀ v ∈ P, ∃ p ∈ sol.points, pdist v p ≤ radius * safety_factor := by
  intro sol hsol v hv
  have hv' : v ∈ exteriorCoords P := by
    rw [exteriorCoords]
    exact List.mem_append.mpr (Or.inl hv)
  rw [generate_multiple_solutions] at hsol
  simp only [List.mem_cons, List.not_mem_nil, or_false] at hsol
  rcases hsol with rfl | rfl | rfl
  · exact ensure_coverage_covers_of_convex hr hconv hopen hne hcl v hv'
  · exact ensure_coverage_covers_of_convex hr hconv hopen hne hcl v hv'
  · exact ensure_coverage_covers_of_convex hr hconv hopen hne hcl v hv'

/-- Witness for the amended C1: on the 100×50 rectangle at effective radius
4, the corner `(0,0)` is within the radius of some Standard Grid placement
point. -/
theorem C1_amended_vertex_coverage_witness :
    ∃ p ∈ calculate_grid_placement (rectPoly 100 50) (4 * 1) (0, 0),
      pdist ((0 : ℝ), (0 : ℝ)) p ≤ 4 * 1 := by
  have h := C1_amended_vertex_coverage (rectPoly 100 50) 4 1 (by norm_num) rect100_convex
    rect100_open rect100_ne rect100_closure
  exact h ⟨"Option A: Standard Grid",
      calculate_grid_placement (rectPoly 100 50) (4 * 1) (0, 0)⟩
    (by simp only [generate_multiple_solutions]; exact List.mem_cons_self _ _)
    ((0 : ℝ), (0 : ℝ)) (by simp [rectPoly])

theorem pdist_far_of_near {w v f : Pt} {D d : ℝ} (hD : D ≤ pdist w v)
    (hd : pdist w f ≤ d) : D - d ≤ pdist f v := by
  have htri := pdist_triangle w f v
  linarith

theorem rect100_fis_close (w : Pt) (r : ℝ) (hw : w ∈ exteriorCoords (rectPoly 100 50)) :
    pdist w (find_internal_spot (rectPoly 100 50) w r) ≤ 4 :=
  find_internal_spot_close w r fun hd =>
    walkOne_contains_of_convex rect100_convex rect100_open rect100_ne
      (rect100_closure w hw) hd

theorem rect100_fis_two (w : Pt) (r : ℝ) (hw : w ∈ exteriorCoords (rectPoly 100 50))
    (hd : 4 ≤ pdist w (representative_point (rectPoly 100 50))) :
    pdist w (find_internal_spot (rectPoly 100 50) w r) = 2 :=
  find_internal_spot_dist_two w r hd
    (walkOne_contains_of_convex rect100_convex rect100_open rect100_ne
      (rect100_closure w hw) hd)

/-- C1 counterexample: for the convex rectangle `[(0,0),(100,0),(100,50),(0,50)]`
and radius `r = 1 > 0`, the Standard Grid placement set after Coverage Repair
leaves some boundary vertex farther than `r` from every placement point: the
repair walk inserts points at distance 2 (step length 2) from an uncovered
vertex, which cannot cover it at radius 1. -/
theorem C1_counterexample :
    ¬ ∀ v ∈ rectPoly 100 50,
        ∃ p ∈ calculate_grid_placement (rectPoly 100 50) 1 (0, 0), pdist v p ≤ 1 := by
  intro hcov
  have hq : contains (rectPoly 100 50) (representative_point (rectPoly 100 50)) :=
    representative_point_contains rect100_ne
  have hqb : 0 < (representative_point (rectPoly 100 50)).1 ∧
      (representative_point (rectPoly 100 50)).1 < 100 ∧
      0 < (representative_point (rectPoly 100 50)).2 ∧
      (representative_point (rectPoly 100 50)).2 < 50 := by
    have hq2 : contains (rectPoly 100 50) ((representative_point (rectPoly 100 50)).1,
        (representative_point (rectPoly 100 50)).2) := by
      rw [Prod.mk.eta]
      exact hq
    exact (contains_rect (by norm_num) (by norm_num) _ _).mp hq2
  obtain ⟨v, hvmem, hvcases, hdq⟩ :
      ∃ v : Pt, v ∈ rectPoly 100 50 ∧
        (v = ((0 : ℝ), (0 : ℝ)) ∨ v = ((100 : ℝ), (0 : ℝ))) ∧
        50 ≤ pdist v (representative_point (rectPoly 100 50)) := by
    rcases le_or_lt (representative_point (rectPoly 100 50)).1 50 with hle | hgt
    · refine ⟨((100 : ℝ), (0 : ℝ)), by simp [rectPoly], Or.inr rfl, ?_⟩
      refine le_trans ?_ (abs_fst_sub_le_pdist _ _)
      rw [show (((100 : ℝ), (0 : ℝ)) : Pt).1 = 100 from rfl,
        abs_of_nonneg (by linarith [hqb.2.1] : (0 : ℝ) ≤ 100 - (representative_point (rectPoly 100 50)).1)]
      linarith
    · refine ⟨((0 : ℝ), (0 : ℝ)), by simp [rectPoly], Or.inl rfl, ?_⟩
      refine le_trans ?_ (abs_fst_sub_le_pdist _ _)
      rw [show (((0 : ℝ), (0 : ℝ)) : Pt).1 = 0 from rfl,
        show (0 : ℝ) - (representative_point (rectPoly 100 50)).1 =
          -((representative_point (rectPoly 100 50)).1) by ring,
        abs_neg, abs_of_pos hqb.1]
      linarith
  have hfar : ∀ p ∈ calculate_grid_placement (rectPoly 100 50) 1 (0, 0), 1 < pdist v p := by
    intro p hp
    rw [calculate_grid_placement] at hp
    rcases ensure_coverage_mem p hp with hseed | ⟨w, hwmem, rfl⟩
    · rcases seedPoints_mem p hseed with hg | hcent | hrep
      · -- a kept lattice point: both coordinates are at least one spacing unit
        obtain ⟨hx, hy, hcont⟩ := gridScan_mem_elim hg
        obtain ⟨hminX, hmaxX, hminY, hmaxY⟩ :=
          bounds_rect (by norm_num : (0 : ℝ) ≤ 100) (by norm_num : (0 : ℝ) ≤ 50)
        rw [hminX, hmaxX] at hx
        rw [hminY, hmaxY] at hy
        obtain ⟨i, _, hxi⟩ := mem_scanXs.mp hx
        obtain ⟨j, _, hyj⟩ := mem_scanXs.mp hy
        have hcb : 0 < p.1 ∧ p.1 < 100 ∧ 0 < p.2 ∧ p.2 < 50 := by
          have hc2 : contains (rectPoly 100 50) (p.1, p.2) := by
            rw [Prod.mk.eta]
            exact hcont
          exact (contains_rect (by norm_num) (by norm_num) _ _).mp hc2
        rw [gridSpacing] at hxi hyj
        have hxval : p.1 = (i : ℝ) * (1 * 1.414 * 0.95) := by
          rw [hxi]
          norm_num
        have hyval : p.2 = (j : ℝ) * (1 * 1.414 * 0.95) := by
          rw [hyj]
          norm_num
        have hi1 : (1 : ℝ) ≤ (i : ℝ) := by
          rcases Nat.eq_zero_or_pos i with rfl | hpos
          · exfalso
            rw [hxval] at hcb
            norm_num at hcb
          · exact_mod_cast hpos
        have hj1 : (1 : ℝ) ≤ (j : ℝ) := by
          rcases Nat.eq_zero_or_pos j with rfl | hpos
          · exfalso
            rw [hyval] at hcb
            norm_num at hcb
          · exact_mod_cast hpos
        have hx13 : (1.3433 : ℝ) ≤ p.1 := by
          rw [hxval]
          nlinarith
        have hy13 : (1.3433 : ℝ) ≤ p.2 := by
          rw [hyval]
          nlinarith
        rcases hvcases with rfl | rfl
        · refine lt_of_lt_of_le (by norm_num : (1 : ℝ) < 1.3433)
            (le_trans ?_ (abs_fst_sub_le_pdist _ _))
          rw [show (((0 : ℝ), (0 : ℝ)) : Pt).1 = 0 from rfl,
            show (0 : ℝ) - p.1 = -(p.1) by ring, abs_neg, abs_of_pos hcb.1]
          exact hx13
        · refine lt_of_lt_of_le (by norm_num : (1 : ℝ) < 1.3433)
            (le_trans ?_ (abs_snd_sub_le_pdist _ _))
          rw [show (((100 : ℝ), (0 : ℝ)) : Pt).2 = 0 from rfl,
            show (0 : ℝ) - p.2 = -(p.2) by ring, abs_neg, abs_of_pos hcb.2.2.1]
          exact hy13
      · -- the centroid seed (50, 25) is far from both candidate vertices
        rw [hcent, centroid_rect (by norm_num) (by norm_num)]
        rcases hvcases with rfl | rfl
        · refine lt_of_lt_of_le (by norm_num : (1 : ℝ) < 50)
            (le_trans ?_ (abs_fst_sub_le_pdist _ _))
          norm_num
        · refine lt_of_lt_of_le (by norm_num : (1 : ℝ) < 50)
            (le_trans ?_ (abs_fst_sub_le_pdist _ _))
          norm_num
      · -- the representative-point seed is at least 50 away
        rw [hrep]
        linarith
    · -- a repair-inserted point
      by_cases hwv : w = v
      · subst hwv
        have h2 := rect100_fis_two w 1 hwmem (le_trans (by norm_num) hdq)
        rw [h2]
        norm_num
      · have hclose := rect100_fis_close w 1 hwmem
        have hwlist : w = ((0 : ℝ), (0 : ℝ)) ∨ w = ((100 : ℝ), (0 : ℝ)) ∨
            w = ((100 : ℝ), (50 : ℝ)) ∨ w = ((0 : ℝ), (50 : ℝ)) := by
          have := hwmem
          simp only [exteriorCoords, rectPoly, List.mem_append, List.mem_cons,
            List.not_mem_nil, or_false, List.take, List.mem_singleton] at this
          tauto
        have hvw : 50 ≤ pdist w v := by
          rcases hvcases with rfl | rfl <;> rcases hwlist with rfl | rfl | rfl | rfl
          · exact absurd rfl hwv
          · refine le_trans ?_ (abs_fst_sub_le_pdist _ _)
            norm_num
          · refine le_trans ?_ (abs_fst_sub_le_pdist _ _)
            norm_num
          · refine le_trans ?_ (abs_snd_sub_le_pdist _ _)
            norm_num
          · refine le_trans ?_ (abs_fst_sub_le_pdist _ _)
            norm_num
          · exact absurd rfl hwv
          · refine le_trans ?_ (abs_snd_sub_le_pdist _ _)
            norm_num
          · refine le_trans ?_ (abs_fst_sub_le_pdist _ _)
            norm_num
        have hfarf := pdist_far_of_near hvw hclose
        rw [pdist_comm]
        linarith
  obtain ⟨p, hp, hple⟩ := hcov v hvmem
  exact absurd hple (not_le.mpr (hfar p hp))

/-! ## The C9 end-to-end scenario: 100×50 rectangle, effective radius 40 -/

theorem forty_lt_pdist {p w : Pt} (h : 1600 < distSq p w) : 40 < pdist p w := by
  rw [lt_pdist_iff (by norm_num : (0 : ℝ) ≤ 40)]
  calc (40 : ℝ) ^ 2 = 1600 := by norm_num
    _ < _ := h

/-- At radius 40 the standard grid scan keeps no lattice point: every scanned
row is at `y = j * 53.732`, which is either on the bottom edge or above the
rectangle. -/
theorem gridScan_rect100_40 : gridScan (rectPoly 100 50) 40 (0, 0) = [] := by
  rw [List.eq_nil_iff_forall_not_mem]
  intro p hp
  obtain ⟨_, hy, hcont⟩ := gridScan_mem_elim hp
  obtain ⟨_, _, hminY, hmaxY⟩ :=
    bounds_rect (by norm_num : (0 : ℝ) ≤ 100) (by norm_num : (0 : ℝ) ≤ 50)
  rw [hminY, hmaxY] at hy
  obtain ⟨j, _, hyj⟩ := mem_scanXs.mp hy
  have hcb : 0 < p.1 ∧ p.1 < 100 ∧ 0 < p.2 ∧ p.2 < 50 := by
    have hc2 : contains (rectPoly 100 50) (p.1, p.2) := by
      rw [Prod.mk.eta]
      exact hcont
    exact (contains_rect (by norm_num) (by norm_num) _ _).mp hc2
  rw [gridSpacing] at hyj
  have hyval : p.2 = (j : ℝ) * (40 * 1.414 * 0.95) := by
    rw [hyj]
    norm_num
  rcases Nat.eq_zero_or_pos j with rfl | hpos
  · rw [hyval] at hcb
    norm_num at hcb
  · have hj1 : (1 : ℝ) ≤ (j : ℝ) := by exact_mod_cast hpos
    have : (50 : ℝ) < p.2 := by
      rw [hyval]
      nlinarith
    linarith [hcb.2.2.2]

/-- At radius 40 the repair seeds the empty scan with the centroid (50, 25). -/
theorem seed_rect100_40 :
    seedPoints (rectPoly 100 50) (gridScan (rectPoly 100 50) 40 (0, 0)) =
      [((50 : ℝ), (25 : ℝ))] := by
  rw [gridScan_rect100_40, seedPoints, if_pos rfl,
    centroid_rect (by norm_num : (0 : ℝ) < 100) (by norm_num : (0 : ℝ) < 50), if_pos]
  · norm_num
  · exact (contains_rect (by norm_num) (by norm_num) _ _).mpr (by norm_num)

set_option maxHeartbeats 1600000 in
/-- C9: for the rectangle `[(0,0),(100,0),(100,50),(0,50)]` with effective
radius 40, the Standard Grid solution (grid generation with zero offset
followed by Coverage Repair) contains fewer than 6 points (it has exactly 5:
the centroid seed and one repair point near each corner), and the Coverage
Verifier returns true on that solution. -/
theorem C9_end_to_end :
    (calculate_grid_placement (rectPoly 100 50) 40 (0, 0)).length < 6 ∧
      check_geometric_coverage (rectPoly 100 50)
        (calculate_grid_placement (rectPoly 100 50) 40 (0, 0)) 40 1 := by
  classical
  have hm1 : ((0 : ℝ), (0 : ℝ)) ∈ exteriorCoords (rectPoly 100 50) := by
    simp [exteriorCoords, rectPoly]
  have hm2 : ((100 : ℝ), (0 : ℝ)) ∈ exteriorCoords (rectPoly 100 50) := by
    simp [exteriorCoords, rectPoly]
  have hm3 : ((100 : ℝ), (50 : ℝ)) ∈ exteriorCoords (rectPoly 100 50) := by
    simp [exteriorCoords, rectPoly]
  have hm4 : ((0 : ℝ), (50 : ℝ)) ∈ exteriorCoords (rectPoly 100 50) := by
    simp [exteriorCoords, rectPoly]
  set f1 := find_internal_spot (rectPoly 100 50) ((0 : ℝ), (0 : ℝ)) 40 with hf1
  set f2 := find_internal_spot (rectPoly 100 50) ((100 : ℝ), (0 : ℝ)) 40 with hf2
  set f3 := find_internal_spot (rectPoly 100 50) ((100 : ℝ), (50 : ℝ)) 40 with hf3
  set f4 := find_internal_spot (rectPoly 100 50) ((0 : ℝ), (50 : ℝ)) 40 with hf4
  have hp1 : pdist ((0 : ℝ), (0 : ℝ)) f1 ≤ 4 := rect100_fis_close _ 40 hm1
  have hp2 : pdist ((100 : ℝ), (0 : ℝ)) f2 ≤ 4 := rect100_fis_close _ 40 hm2
  have hp3 : pdist ((100 : ℝ), (50 : ℝ)) f3 ≤ 4 := rect100_fis_close _ 40 hm3
  have hp4 : pdist ((0 : ℝ), (50 : ℝ)) f4 ≤ 4 := rect100_fis_close _ 40 hm4
  have hb1 : 0 < f1.1 ∧ f1.1 < 100 ∧ 0 < f1.2 ∧ f1.2 < 50 := by
    have h := find_internal_spot_contains ((0 : ℝ), (0 : ℝ)) 40 rect100_ne
    have h2 : contains (rectPoly 100 50) (f1.1, f1.2) := by
      rw [Prod.mk.eta]
      exact h
    exact (contains_rect (by norm_num) (by norm_num) _ _).mp h2
  have hb2 : 0 < f2.1 ∧ f2.1 < 100 ∧ 0 < f2.2 ∧ f2.2 < 50 := by
    have h := find_internal_spot_contains ((100 : ℝ), (0 : ℝ)) 40 rect100_ne
    have h2 : contains (rectPoly 100 50) (f2.1, f2.2) := by
      rw [Prod.mk.eta]
      exact h
    exact (contains_rect (by norm_num) (by norm_num) _ _).mp h2
  have hb3 : 0 < f3.1 ∧ f3.1 < 100 ∧ 0 < f3.2 ∧ f3.2 < 50 := by
    have h := find_internal_spot_contains ((100 : ℝ), (50 : ℝ)) 40 rect100_ne
    have h2 : contains (rectPoly 100 50) (f3.1, f3.2) := by
      rw [Prod.mk.eta]
      exact h
    exact (contains_rect (by norm_num) (by norm_num) _ _).mp h2
  have hb4 : 0 < f4.1 ∧ f4.1 < 100 ∧ 0 < f4.2 ∧ f4.2 < 50 := by
    have h := find_internal_spot_contains ((0 : ℝ), (50 : ℝ)) 40 rect100_ne
    have h2 : contains (rectPoly 100 50) (f4.1, f4.2) := by
      rw [Prod.mk.eta]
      exact h
    exact (contains_rect (by norm_num) (by norm_num) _ _).mp h2
  have hc1 : ((0 : ℝ) - f1.1) ^ 2 + ((0 : ℝ) - f1.2) ^ 2 ≤ 16 := by
    have h := (pdist_le_iff (by norm_num : (0 : ℝ) ≤ 4)).mp hp1
    calc ((0 : ℝ) - f1.1) ^ 2 + ((0 : ℝ) - f1.2) ^ 2 = distSq ((0 : ℝ), (0 : ℝ)) f1 := rfl
      _ ≤ (4 : ℝ) ^ 2 := h
      _ = 16 := by norm_num
  have hc2 : ((100 : ℝ) - f2.1) ^ 2 + ((0 : ℝ) - f2.2) ^ 2 ≤ 16 := by
    have h := (pdist_le_iff (by norm_num : (0 : ℝ) ≤ 4)).mp hp2
    calc ((100 : ℝ) - f2.1) ^ 2 + ((0 : ℝ) - f2.2) ^ 2 = distSq ((100 : ℝ), (0 : ℝ)) f2 := rfl
      _ ≤ (4 : ℝ) ^ 2 := h
      _ = 16 := by norm_num
  have hc3 : ((100 : ℝ) - f3.1) ^ 2 + ((50 : ℝ) - f3.2) ^ 2 ≤ 16 := by
    have h := (pdist_le_iff (by norm_num : (0 : ℝ) ≤ 4)).mp hp3
    calc ((100 : ℝ) - f3.1) ^ 2 + ((50 : ℝ) - f3.2) ^ 2 = distSq ((100 : ℝ), (50 : ℝ)) f3 := rfl
      _ ≤ (4 : ℝ) ^ 2 := h
      _ = 16 := by norm_num
  have hc4 : ((0 : ℝ) - f4.1) ^ 2 + ((50 : ℝ) - f4.2) ^ 2 ≤ 16 := by
    have h := (pdist_le_iff (by norm_num : (0 : ℝ) ≤ 4)).mp hp4
    calc ((0 : ℝ) - f4.1) ^ 2 + ((50 : ℝ) - f4.2) ^ 2 = distSq ((0 : ℝ), (50 : ℝ)) f4 := rfl
      _ ≤ (4 : ℝ) ^ 2 := h
      _ = 16 := by norm_num
  have hcomp1 : f1.1 ≤ 4 ∧ f1.2 ≤ 4 :=
    ⟨by nlinarith [hb1.1, hb1.2.2.1, sq_nonneg ((0 : ℝ) - f1.2)],
     by nlinarith [hb1.1, hb1.2.2.1, sq_nonneg ((0 : ℝ) - f1.1)]⟩
  have hcomp2 : 96 ≤ f2.1 ∧ f2.2 ≤ 4 :=
    ⟨by nlinarith [hb2.2.1, hb2.2.2.1, sq_nonneg ((0 : ℝ) - f2.2)],
     by nlinarith [hb2.2.1, hb2.2.2.1, sq_nonneg ((100 : ℝ) - f2.1)]⟩
  have hcomp3 : 96 ≤ f3.1 ∧ 46 ≤ f3.2 :=
    ⟨by nlinarith [hb3.2.1, hb3.2.2.2, sq_nonneg ((50 : ℝ) - f3.2)],
     by nlinarith [hb3.2.1, hb3.2.2.2, sq_nonneg ((100 : ℝ) - f3.1)]⟩
  have hcomp4 : f4.1 ≤ 4 ∧ 46 ≤ f4.2 :=
    ⟨by nlinarith [hb4.1, hb4.2.2.2, sq_nonneg ((50 : ℝ) - f4.2)],
     by nlinarith [hb4.1, hb4.2.2.2, sq_nonneg ((0 : ℝ) - f4.1)]⟩
  -- decisions of the five repair steps
  have hfar1 : mpFar [((50 : ℝ), (25 : ℝ))] ((0 : ℝ), (0 : ℝ)) 40 := by
    intro p hp
    rw [List.mem_singleton] at hp
    subst hp
    refine forty_lt_pdist ?_
    rw [distSq]
    norm_num
  have hfar2 : mpFar [((50 : ℝ), (25 : ℝ)), f1] ((100 : ℝ), (0 : ℝ)) 40 := by
    intro p hp
    simp only [List.mem_cons, List.not_mem_nil, or_false] at hp
    rcases hp with rfl | rfl
    · refine forty_lt_pdist ?_
      rw [distSq]
      norm_num
    · have hpair : (50 : ℝ) ≤ pdist ((0 : ℝ), (0 : ℝ)) ((100 : ℝ), (0 : ℝ)) :=
        le_trans (by norm_num) (abs_fst_sub_le_pdist _ _)
      have := pdist_far_of_near hpair hp1
      linarith
  have hfar3 : mpFar [((50 : ℝ), (25 : ℝ)), f1, f2] ((100 : ℝ), (50 : ℝ)) 40 := by
    intro p hp
    simp only [List.mem_cons, List.not_mem_nil, or_false] at hp
    rcases hp with rfl | rfl | rfl
    · refine forty_lt_pdist ?_
      rw [distSq]
      norm_num
    · have hpair : (50 : ℝ) ≤ pdist ((0 : ℝ), (0 : ℝ)) ((100 : ℝ), (50 : ℝ)) :=
        le_trans (by norm_num) (abs_fst_sub_le_pdist _ _)
      have := pdist_far_of_near hpair hp1
      linarith
    · have hpair : (50 : ℝ) ≤ pdist ((100 : ℝ), (0 : ℝ)) ((100 : ℝ), (50 : ℝ)) :=
        le_trans (by norm_num) (abs_snd_sub_le_pdist _ _)
      have := pdist_far_of_near hpair hp2
      linarith
  have hfar4 : mpFar [((50 : ℝ), (25 : ℝ)), f1, f2, f3] ((0 : ℝ), (50 : ℝ)) 40 := by
    intro p hp
    simp only [List.mem_cons, List.not_mem_nil, or_false] at hp
    rcases hp with rfl | rfl | rfl | rfl
    · refine forty_lt_pdist ?_
      rw [distSq]
      norm_num
    · have hpair : (50 : ℝ) ≤ pdist ((0 : ℝ), (0 : ℝ)) ((0 : ℝ), (50 : ℝ)) :=
        le_trans (by norm_num) (abs_snd_sub_le_pdist _ _)
      have := pdist_far_of_near hpair hp1
      linarith
    · have hpair : (50 : ℝ) ≤ pdist ((100 : ℝ), (0 : ℝ)) ((0 : ℝ), (50 : ℝ)) :=
        le_trans (by norm_num) (abs_fst_sub_le_pdist _ _)
      have := pdist_far_of_near hpair hp2
      linarith
    · have hpair : (50 : ℝ) ≤ pdist ((100 : ℝ), (50 : ℝ)) ((0 : ℝ), (50 : ℝ)) :=
        le_trans (by norm_num) (abs_fst_sub_le_pdist _ _)
      have := pdist_far_of_near hpair hp3
      linarith
  have hnfar5 : ¬ mpFar [((50 : ℝ), (25 : ℝ)), f1, f2, f3, f4] ((0 : ℝ), (0 : ℝ)) 40 := by
    intro hcon
    have h := hcon f1 (by simp)
    rw [pdist_comm] at h
    linarith
  have hext : exteriorCoords (rectPoly 100 50) =
      [((0 : ℝ), (0 : ℝ)), ((100 : ℝ), (0 : ℝ)), ((100 : ℝ), (50 : ℝ)),
        ((0 : ℝ), (50 : ℝ)), ((0 : ℝ), (0 : ℝ))] := rfl
  have hfold : calculate_grid_placement (rectPoly 100 50) 40 (0, 0) =
      [((50 : ℝ), (25 : ℝ)), f1, f2, f3, f4] := by
    rw [calculate_grid_placement, ensure_coverage, seed_rect100_40, hext]
    rw [List.foldl_cons, repairStep, ← hf1, if_pos hfar1]
    simp only [List.cons_append, List.nil_append]
    rw [List.foldl_cons, repairStep, ← hf2, if_pos hfar2]
    simp only [List.cons_append, List.nil_append]
    rw [List.foldl_cons, repairStep, ← hf3, if_pos hfar3]
    simp only [List.cons_append, List.nil_append]
    rw [List.foldl_cons, repairStep, ← hf4, if_pos hfar4]
    simp only [List.cons_append, List.nil_append]
    rw [List.foldl_cons, repairStep, if_neg hnfar5, List.foldl_nil]
  refine ⟨by rw [hfold]; norm_num, ?_⟩
  rw [hfold]
  refine ⟨by simp, Or.inl ?_⟩
  rw [polyRegion_rect (by norm_num) (by norm_num)]
  intro z hz
  simp only [Set.mem_setOf_eq] at hz
  obtain ⟨hz1, hz2, hz3, hz4⟩ := hz
  have hmem : ∀ c : Pt, c ∈ [((50 : ℝ), (25 : ℝ)), f1, f2, f3, f4] →
      distSq z c ≤ 1600 →
      z ∈ unionDisks [((50 : ℝ), (25 : ℝ)), f1, f2, f3, f4] (40 * 1) := by
    intro c hcmem hd
    rw [unionDisks]
    refine Set.mem_iUnion₂.mpr ⟨c, hcmem, ?_⟩
    rw [disk, if_pos (by norm_num : (0 : ℝ) < 40 * 1)]
    rw [Set.mem_setOf_eq]
    calc distSq z c ≤ 1600 := hd
      _ = (40 * 1 : ℝ) ^ 2 := by norm_num
  rcases le_or_lt z.1 22 with hx22 | hx22
  · rcases le_or_lt z.2 25 with hy25 | hy25
    · refine hmem f1 (by simp) ?_
      have e1 : (z.1 - f1.1) ^ 2 ≤ (22 : ℝ) ^ 2 :=
        sq_le_sq' (by linarith [hcomp1.1]) (by linarith [hb1.1])
      have e2 : (z.2 - f1.2) ^ 2 ≤ (25 : ℝ) ^ 2 :=
        sq_le_sq' (by linarith [hcomp1.2]) (by linarith [hb1.2.2.1])
      calc distSq z f1 = (z.1 - f1.1) ^ 2 + (z.2 - f1.2) ^ 2 := rfl
        _ ≤ 1600 := by nlinarith [e1, e2]
    · refine hmem f4 (by simp) ?_
      have e1 : (z.1 - f4.1) ^ 2 ≤ (22 : ℝ) ^ 2 :=
        sq_le_sq' (by linarith [hcomp4.1]) (by linarith [hb4.1])
      have e2 : (z.2 - f4.2) ^ 2 ≤ (25 : ℝ) ^ 2 :=
        sq_le_sq' (by linarith [hb4.2.2.2]) (by linarith [hcomp4.2])
      calc distSq z f4 = (z.1 - f4.1) ^ 2 + (z.2 - f4.2) ^ 2 := rfl
        _ ≤ 1600 := by nlinarith [e1, e2]
  · rcases le_or_lt z.1 78 with hx78 | hx78
    · refine hmem ((50 : ℝ), (25 : ℝ)) (by simp) ?_
      have e1 : (z.1 - 50) ^ 2 ≤ (28 : ℝ) ^ 2 :=
        sq_le_sq' (by linarith) (by linarith)
      have e2 : (z.2 - 25) ^ 2 ≤ (25 : ℝ) ^ 2 :=
        sq_le_sq' (by linarith) (by linarith)
      calc distSq z ((50 : ℝ), (25 : ℝ)) = (z.1 - 50) ^ 2 + (z.2 - 25) ^ 2 := rfl
        _ ≤ 1600 := by nlinarith [e1, e2]
    · rcases le_or_lt z.2 25 with hy25 | hy25
      · refine hmem f2 (by simp) ?_
        have e1 : (z.1 - f2.1) ^ 2 ≤ (22 : ℝ) ^ 2 :=
          sq_le_sq' (by linarith [hcomp2.1]) (by linarith [hb2.2.1])
        have e2 : (z.2 - f2.2) ^ 2 ≤ (25 : ℝ) ^ 2 :=
          sq_le_sq' (by linarith [hcomp2.2]) (by linarith [hb2.2.2.1])
        calc distSq z f2 = (z.1 - f2.1) ^ 2 + (z.2 - f2.2) ^ 2 := rfl
          _ ≤ 1600 := by nlinarith [e1, e2]
      · refine hmem f3 (by simp) ?_
        have e1 : (z.1 - f3.1) ^ 2 ≤ (22 : ℝ) ^ 2 :=
          sq_le_sq' (by linarith [hcomp3.1]) (by linarith [hb3.2.1])
        have e2 : (z.2 - f3.2) ^ 2 ≤ (25 : ℝ) ^ 2 :=
          sq_le_sq' (by linarith [hb3.2.2.2]) (by linarith [hcomp3.2])
        calc distSq z f3 = (z.1 - f3.1) ^ 2 + (z.2 - f3.2) ^ 2 := rfl
          _ ≤ 1600 := by nlinarith [e1, e2]

/-- Witness for C10 on the 100×50 rectangle: the centroid seed `(50, 25)` of
the Standard Grid solution is strictly inside the polygon. -/
theorem C10_solutions_inside_witness :
    contains (rectPoly 100 50) ((50 : ℝ), (25 : ℝ)) := by
  have h := C10_solutions_inside (rectPoly 100 50) 40 1
    ⟨((50 : ℝ), (25 : ℝ)),
      (contains_rect (by norm_num) (by norm_num) 50 25).mpr (by norm_num)⟩
  refine h ⟨"Option A: Standard Grid",
      calculate_grid_placement (rectPoly 100 50) (40 * 1) (0, 0)⟩ ?_
    ((50 : ℝ), (25 : ℝ)) ?_
  · simp only [generate_multiple_solutions]
    exact List.mem_cons_self _ _
  · show ((50 : ℝ), (25 : ℝ)) ∈ calculate_grid_placement (rectPoly 100 50) (40 * 1) (0, 0)
    rw [show (40 * 1 : ℝ) = 40 by norm_num, calculate_grid_placement, ensure_coverage]
    obtain ⟨tail, htail⟩ := foldl_repairStep_extends (rectPoly 100 50) 40
      (exteriorCoords (rectPoly 100 50))
      (seedPoints (rectPoly 100 50) (gridScan (rectPoly 100 50) 40 (0, 0)))
    rw [htail, seed_rect100_40]
    simp

end FEP
